import Mathlib

/-!
Verification of the mp++ small-value-optimised multiprecision integer core
(`include/mp++.hpp`), shallowly embedded over the mainstream platform the
spec's concrete scenarios fix: 64-bit limbs, no nail bits, a native 128-bit
unsigned type available (so the double-limb multiply/divide primitives exist).
On this platform `GMP_NUMB_BITS = 64` and `GMP_NUMB_MASK = 2^64 - 1`; masking
a limb with `GMP_NUMB_MASK` is `% 2^64`, and C unsigned wrap-around is `% 2^64`.

Static integers are embedded per compile-time size class exactly as the code
specialises them: `s_int1` (SSize == 1), `s_int2` (SSize == 2) and `s_intG`
(the generic mpn path, SSize arbitrary, limbs as a list).  The GMP backend
(`mpn_*` / `mpz_*` functions) is external to the repository; it is modelled
from the spec's backend contract (§6.2) where the code calls into it.
-/

namespace Mppp

/-- Limb modulus: `2 ^ GMP_NUMB_BITS` on the modelled platform. -/
def W : Nat := 2 ^ 64

/-- `GMP_NUMB_BITS` on the modelled platform (64-bit limbs, no nails). -/
def GMP_NUMB_BITS : Nat := 64

/-- Masking with `GMP_NUMB_MASK` (all 64 bits set): `x & GMP_NUMB_MASK = x % 2^64`. -/
def numbMask (x : Nat) : Nat := x % W

/-- C unsigned subtraction `a - b` on `mp_limb_t` (wraps modulo `2^64`);
`a` and `b` are limb values `< W`. -/
def submod (a b : Nat) : Nat := (a + W - b) % W

/-- `limb_add_overflow(a, b, res)` (mp++.hpp:366-370): `*res = a + b` with
unsigned wrap-around, returns 1 iff the true sum overflowed. -/
def limb_add_overflow (a b : Nat) : Nat × Nat :=
  let res := (a + b) % W
  (res, if res < a then 1 else 0)

/-- Value of a little-endian limb list in base `2^64`. -/
def valN : List Nat → Nat
  | [] => 0
  | d :: ds => d + W * valN ds

/-- The little-endian base-`2^64` digits of `n`, padded (or truncated) to
exactly `len` limbs.  Used to model the limb arrays the backend writes. -/
def limbsOf : Nat → Nat → List Nat
  | 0, _ => []
  | len + 1, n => n % W :: limbsOf len (n / W)

/-- Overwrite `src.length` entries of `dst` starting at position `pos`
(keeping the rest of `dst`): models writing into a slice of a limb buffer. -/
def writeAt (dst : List Nat) (pos : Nat) (src : List Nat) : List Nat :=
  dst.take pos ++ src ++ dst.drop (pos + src.length)

/-- The descending scan used by `sub_compute_size` (mp++.hpp:1285-1295) and by
the size fix-up loops of the generic division (mp++.hpp:2177-2188): starting
from candidate size `s`, decrement while the top limb (masked) is zero. -/
def sub_compute_size (rdata : List Nat) : Nat → Nat
  | 0 => 0
  | s + 1 => if numbMask (rdata.getD s 0) ≠ 0 then s + 1 else sub_compute_size rdata s

/-! ### The static integer classes (`static_int<SSize>`, mp++.hpp:372-672)

`_mp_size` is signed sign-magnitude; the limbs are the inline buffer.  The
`alloc_tag` sentinel is represented by the variant tag of `mp_int` below. -/

/-- `static_int<1>`: signed size and the single limb. -/
structure s_int1 where
  size : Int
  l0 : Nat
  deriving Repr, DecidableEq

/-- `static_int<2>`: signed size and the two limbs. -/
structure s_int2 where
  size : Int
  l0 : Nat
  l1 : Nat
  deriving Repr, DecidableEq

/-- Generic `static_int<SSize>`: signed size and the limb buffer as a list
of length `SSize`. -/
structure s_intG where
  size : Int
  limbs : List Nat
  deriving Repr, DecidableEq

/-- `dtor_checks()` invariants for `SSize == 1` (mp++.hpp:399-424): size in
range, limbs below the limb modulus, zero tail (unused limbs zero, enforced
for `SSize ≤ opt_size = 2`), top limb of a nonzero value nonzero. -/
def wf1 (s : s_int1) : Prop :=
  s.l0 < W ∧ s.size.natAbs ≤ 1 ∧ (s.size = 0 → s.l0 = 0) ∧
    (s.size ≠ 0 → numbMask s.l0 ≠ 0)

/-- `dtor_checks()` invariants for `SSize == 2`. -/
def wf2 (s : s_int2) : Prop :=
  s.l0 < W ∧ s.l1 < W ∧ s.size.natAbs ≤ 2 ∧
    (s.size = 0 → s.l0 = 0) ∧ (s.size.natAbs ≤ 1 → s.l1 = 0) ∧
    (s.size.natAbs = 1 → numbMask s.l0 ≠ 0) ∧
    (s.size.natAbs = 2 → numbMask s.l1 ≠ 0)

/-- `dtor_checks()` invariants for the generic size class (no zero-tail
requirement once `SSize > opt_size`). -/
def wfG (ssize : Nat) (s : s_intG) : Prop :=
  s.limbs.length = ssize ∧ (∀ d ∈ s.limbs, d < W) ∧ s.size.natAbs ≤ ssize ∧
    (s.size ≠ 0 → numbMask (s.limbs.getD (s.size.natAbs - 1) 0) ≠ 0)

/-- Mathematical value of a `static_int<1>`. -/
def val1 (s : s_int1) : Int := s.size.sign * s.l0

/-- Mathematical value of a `static_int<2>` (uses the zero-tail invariant:
for `asize ≤ 1` the high limb is zero). -/
def val2 (s : s_int2) : Int := s.size.sign * (s.l0 + W * s.l1)

/-- Mathematical value of a generic `static_int`: sign times the value of the
`asize` active limbs. -/
def valG (s : s_intG) : Int := s.size.sign * valN (s.limbs.take s.size.natAbs)

/-- `zero_unused_limbs()` (mp++.hpp:433-442) on the generic class: zeroes the
limbs past `asize`, but only when `SSize ≤ opt_size = 2`. -/
def zero_unused_limbsG (ssize : Nat) (s : s_intG) : s_intG :=
  if ssize ≤ 2 then
    { s with limbs := s.limbs.take s.size.natAbs
        ++ List.replicate (s.limbs.length - s.size.natAbs) 0 }
  else s

/-! ### Backend limb API models

The GMP `mpn_*` functions the kernels delegate to are not part of this
repository; they are modelled from the spec's backend contract (§6.2). -/

/-- Modelled from the spec: backend `add`/`add_n`/`add_1` (§6.2) — add two
limb ranges, the first of length `n1 ≥ n2`, producing `n1` result limbs and a
carry limb (0 or 1). -/
def mpn_add (xs ys : List Nat) : List Nat × Nat :=
  let s := valN xs + valN ys
  (limbsOf xs.length s, s / W ^ xs.length)

/-- Modelled from the spec: backend `sub`/`sub_n`/`sub_1` (§6.2) — subtract
the second limb range from the first (first of length `n1 ≥ n2`), producing
`n1` result limbs (wrapping modulo `2^(64·n1)`) and a borrow (0 or 1). -/
def mpn_sub (xs ys : List Nat) : List Nat × Nat :=
  let n := xs.length
  ((limbsOf n ((valN xs + W ^ n - valN ys) % W ^ n)),
    if valN xs < valN ys then 1 else 0)

/-- Modelled from the spec: backend `cmp` (§6.2) — compare two limb ranges of
equal length, returning the sign of the difference. -/
def mpn_cmp (xs ys : List Nat) : Int :=
  if valN xs > valN ys then 1 else if valN xs < valN ys then -1 else 0

/-- Modelled from the spec: backend `lshift` (§6.2) — shift a limb range left
by `rs` bits (`1 ≤ rs < 64`), returning the `n` low result limbs and the bits
shifted out of the top. -/
def mpn_lshift (xs : List Nat) (rs : Nat) : List Nat × Nat :=
  let n := xs.length
  let full := valN xs * 2 ^ rs
  (limbsOf n (full % W ^ n), full / W ^ n)

/-- Modelled from the spec: backend `divrem_1` (§6.2) — divide a limb range
by a single limb, producing `n` quotient limbs and the remainder limb. -/
def mpn_divrem_1 (xs : List Nat) (d : Nat) : List Nat × Nat :=
  (limbsOf xs.length (valN xs / d), valN xs % d)

/-- Modelled from the spec: backend `tdiv_qr` (§6.2) — divide a limb range of
length `n1` by one of length `n2 ≤ n1` (divisor nonzero), producing
`n1 - n2 + 1` quotient limbs and `n2` remainder limbs. -/
def mpn_tdiv_qr (xs ys : List Nat) : List Nat × List Nat :=
  (limbsOf (xs.length - ys.length + 1) (valN xs / valN ys),
    limbsOf ys.length (valN xs % valN ys))

/-! ### Division kernels (`static_div_impl`, mp++.hpp:2132-2304) -/

/-- `dlimb_div` (mp++.hpp:2219-2231): 128-by-128 truncated division through
the native double-limb type, unpacking quotient and remainder into limb
pairs.  Inputs are limb values `< 2^64`; the divisor pair is nonzero. -/
def dlimb_div (op11 op12 op21 op22 : Nat) :
    Nat × Nat × Nat × Nat :=
  let op1 := op11 + op12 * W
  let op2 := op21 + op22 * W
  let q := op1 / op2
  let r := op1 % op2
  (q % W, q / W, r % W, r / W)

/-- 1-limb division kernel (`static_div_impl`, algo 1, mp++.hpp:2194-2217):
native `/` and `%` on the masked limbs, then sign fix-ups (`q` gets
`sign1*sign2`, `r` gets `sign1`). -/
def static_div_impl1 (q r op1 op2 : s_int1) (sign1 sign2 : Int) :
    s_int1 × s_int1 :=
  let q_ := numbMask op1.l0 / numbMask op2.l0
  let r_ := numbMask op1.l0 % numbMask op2.l0
  let qsize : Int := if q_ ≠ 0 then 1 else 0
  let rsize : Int := if r_ ≠ 0 then 1 else 0
  ({ size := if sign1 ≠ sign2 then -qsize else qsize, l0 := q_ },
   { size := if sign1 = -1 then -rsize else rsize, l0 := r_ })

/-- 2-limb division kernel (`static_div_impl`, algo 2, mp++.hpp:2248-2286):
single-limb fast path when both asizes are `< 2`, otherwise `dlimb_div`;
sizes determined by inspecting the high then low result limbs. -/
def static_div_impl2 (q r op1 op2 : s_int2) (asize1 asize2 : Nat)
    (sign1 sign2 : Int) : s_int2 × s_int2 :=
  if asize1 < 2 ∧ asize2 < 2 then
    let q_ := op1.l0 / op2.l0
    let r_ := op1.l0 % op2.l0
    let qsize : Int := if q_ ≠ 0 then 1 else 0
    let rsize : Int := if r_ ≠ 0 then 1 else 0
    ({ size := if sign1 ≠ sign2 then -qsize else qsize, l0 := q_, l1 := 0 },
     { size := if sign1 = -1 then -rsize else rsize, l0 := r_, l1 := 0 })
  else
    let d := dlimb_div op1.l0 op1.l1 op2.l0 op2.l1
    let q1 := d.1
    let q2 := d.2.1
    let r1 := d.2.2.1
    let r2 := d.2.2.2
    let qsize : Int := if q2 ≠ 0 then 2 else if q1 ≠ 0 then 1 else 0
    let rsize : Int := if r2 ≠ 0 then 2 else if r1 ≠ 0 then 1 else 0
    ({ size := if sign1 ≠ sign2 then -qsize else qsize, l0 := q1, l1 := q2 },
     { size := if sign1 = -1 then -rsize else rsize, l0 := r1, l1 := r2 })

/-- Generic division kernel (`static_div_impl`, algo 0, mp++.hpp:2133-2192).
If the divisor has more limbs than the dividend, `r` becomes a copy of `op1`
and `q` is zeroed.  Otherwise dispatch to the backend's `divrem_1` or
`tdiv_qr` (the staging copies the source makes for aliased operands are
identities at the value level), then fix up sizes by the descending scan and
apply the signs. -/
def static_div_impl0 (q r op1 op2 : s_intG) (asize1 asize2 : Nat)
    (sign1 sign2 : Int) : s_intG × s_intG :=
  if asize2 > asize1 then
    ({ q with size := 0 }, op1)
  else
    let data1 := op1.limbs.take asize1
    let data2 := op2.limbs.take asize2
    let qr :=
      if asize2 = 1 then
        let d := mpn_divrem_1 data1 (data2.getD 0 0)
        ({ q with limbs := writeAt q.limbs 0 d.1 },
         { r with limbs := writeAt r.limbs 0 [d.2] })
      else
        let d := mpn_tdiv_qr data1 data2
        ({ q with limbs := writeAt q.limbs 0 d.1 },
         { r with limbs := writeAt r.limbs 0 d.2 })
    let qsize := sub_compute_size qr.1.limbs (asize1 - asize2 + 1)
    let rsize := sub_compute_size qr.2.limbs asize2
    ({ qr.1 with size := if sign1 ≠ sign2 then -(qsize : Int) else qsize },
     { qr.2 with size := if sign1 = -1 then -(rsize : Int) else rsize })

/-- Sign/asize preprocessing shared by all kernels (e.g. mp++.hpp:2289-2298):
`asize = |_mp_size|`, `sign ∈ {-1, 0, 1}`. -/
def asizeOf (sz : Int) : Nat := sz.natAbs

/-- The sign preprocessing: `int sign = asize != 0; if (asize < 0) sign = -1`. -/
def signOf (sz : Int) : Int := if sz < 0 then -1 else if sz ≠ 0 then 1 else 0

/-- `static_div` for `SSize == 1` (mp++.hpp:2287-2304): preprocessing plus
the algo-1 kernel (no `zero_unused_limbs` call needed, algo ≠ 0). -/
def static_div1 (q r op1 op2 : s_int1) : s_int1 × s_int1 :=
  static_div_impl1 q r op1 op2 (signOf op1.size) (signOf op2.size)

/-- `static_div` for `SSize == 2`. -/
def static_div2 (q r op1 op2 : s_int2) : s_int2 × s_int2 :=
  static_div_impl2 q r op1 op2 (asizeOf op1.size) (asizeOf op2.size)
    (signOf op1.size) (signOf op2.size)

/-- `static_div` for the generic size class: kernel plus
`zero_unused_limbs()` on both results (mp++.hpp:2300-2303). -/
def static_divG (ssize : Nat) (q r op1 op2 : s_intG) : s_intG × s_intG :=
  let d := static_div_impl0 q r op1 op2 (asizeOf op1.size) (asizeOf op2.size)
    (signOf op1.size) (signOf op2.size)
  (zero_unused_limbsG ssize d.1, zero_unused_limbsG ssize d.2)

/-! ### Addition/subtraction kernels (`static_add_impl`, mp++.hpp:1283-1559)

Each kernel returns `(ok, rop)`: `ok = false` means the static result would
not fit, and the destination is handed back in the state it had on entry
(the source returns before any write in every failure path). -/

/-- Generic add kernel (algo 0, mp++.hpp:1298-1407).  Zero operands are
copied; then the overflow pre-check (either operand filling the buffer with
its top bit set) fails without writing; same signs add via the backend with
a possible carry limb; opposite signs subtract smaller from larger with the
size rescan. -/
def static_add_impl0 (ssize : Nat) (rop op1 op2 : s_intG)
    (asize1 asize2 : Nat) (sign1 sign2 : Int) : Bool × s_intG :=
  let data1 := op1.limbs.take asize1
  let data2 := op2.limbs.take asize2
  if sign2 = 0 then
    (true, { rop with size := op1.size, limbs := writeAt rop.limbs 0 data1 })
  else if sign1 = 0 then
    (true, { rop with size := op2.size, limbs := writeAt rop.limbs 0 data2 })
  else
    let c1 := asize1 = ssize ∧
      numbMask (op1.limbs.getD (asize1 - 1) 0) / 2 ^ (GMP_NUMB_BITS - 1) ≠ 0
    let c2 := asize2 = ssize ∧
      numbMask (op2.limbs.getD (asize2 - 1) 0) / 2 ^ (GMP_NUMB_BITS - 1) ≠ 0
    if c1 ∨ c2 then
      (false, rop)
    else if sign1 = sign2 then
      if asize1 ≥ asize2 then
        let a := mpn_add data1 data2
        if a.2 ≠ 0 then
          (true, { rop with
                     size := op1.size + sign1,
                     limbs := (writeAt rop.limbs 0 a.1).set asize1 1 })
        else
          (true, { rop with size := op1.size, limbs := writeAt rop.limbs 0 a.1 })
      else
        let a := mpn_add data2 data1
        if a.2 ≠ 0 then
          (true, { rop with
                     size := op2.size + sign2,
                     limbs := (writeAt rop.limbs 0 a.1).set asize2 1 })
        else
          (true, { rop with size := op2.size, limbs := writeAt rop.limbs 0 a.1 })
    else
      if asize1 > asize2 ∨ (asize1 = asize2 ∧ mpn_cmp data1 data2 ≥ 0) then
        let s := mpn_sub data1 data2
        let rl := writeAt rop.limbs 0 s.1
        let sz : Int := sub_compute_size rl asize1
        (true, { rop with size := if sign1 ≠ 1 then -sz else sz, limbs := rl })
      else
        let s := mpn_sub data2 data1
        let rl := writeAt rop.limbs 0 s.1
        let sz : Int := sub_compute_size rl asize2
        (true, { rop with size := if sign2 ≠ 1 then -sz else sz, limbs := rl })

/-- 1-limb add kernel (algo 1, mp++.hpp:1409-1444): a single
`limb_add_overflow` when the signs agree (failure on carry), otherwise a
single-limb subtraction ordered by magnitude. -/
def static_add_impl1 (rop op1 op2 : s_int1) (sign1 sign2 : Int) :
    Bool × s_int1 :=
  if sign1 = sign2 then
    let t := limb_add_overflow op1.l0 op2.l0
    if t.2 ≠ 0 then (false, rop)
    else (true, { size := sign1, l0 := t.1 })
  else
    if op1.l0 ≥ op2.l0 then
      let tmp := op1.l0 - op2.l0
      (true, { size := if tmp = 0 then 0 else sign1, l0 := tmp })
    else
      (true, { size := sign2, l0 := op2.l0 - op1.l0 })

/-- `compare_limbs_2` (mp++.hpp:1447-1467): magnitude comparison of two
2-limb buffers of equal asize 1 or 2, from the top limb down. -/
def compare_limbs_2 (a0 a1 b0 b1 : Nat) (asize : Nat) : Int :=
  if asize = 2 then
    if a1 ≠ b1 then (if a1 > b1 then 1 else -1)
    else if a0 ≠ b0 then (if a0 > b0 then 1 else -1)
    else 0
  else
    if a0 ≠ b0 then (if a0 > b0 then 1 else -1) else 0

/-- 2-limb add kernel (algo 2, mp++.hpp:1468-1537).  Same signs: both limbs
are always processed (the zero-tail invariant makes this correct), failing
iff any carry touches the high limb.  Opposite signs: subtract the smaller
magnitude from the larger (this branch never fails); the borrow into the
high limb cannot wrap. -/
def static_add_impl2 (rop op1 op2 : s_int2) (asize1 asize2 : Nat)
    (sign1 sign2 : Int) : Bool × s_int2 :=
  if sign1 = sign2 then
    let lo := limb_add_overflow op1.l0 op2.l0
    let hi1 := limb_add_overflow op1.l1 op2.l1
    let hi2 := limb_add_overflow hi1.1 lo.2
    if hi1.2 ≠ 0 ∨ hi2.2 ≠ 0 then (false, rop)
    else
      (true, { size := if hi2.1 ≠ 0 then sign1 + sign1 else sign1, l0 := lo.1,
               l1 := hi2.1 })
  else
    if asize1 > asize2 ∨
        (asize1 = asize2 ∧ compare_limbs_2 op1.l0 op1.l1 op2.l0 op2.l1 asize1 ≥ 0) then
      let lo := submod op1.l0 op2.l0
      let hi := submod (submod op1.l1 op2.l1) (if op1.l0 < op2.l0 then 1 else 0)
      (true, { size := if hi ≠ 0 then sign1 + sign1 else if lo ≠ 0 then sign1 else 0,
               l0 := lo, l1 := hi })
    else
      let lo := submod op2.l0 op1.l0
      let hi := submod (submod op2.l1 op1.l1) (if op2.l0 < op1.l0 then 1 else 0)
      (true, { size := if hi ≠ 0 then sign2 + sign2 else sign2, l0 := lo,
               l1 := hi })

/-- `static_addsub` preprocessing for `SSize == 2` (mp++.hpp:1538-1559):
negate `op2`'s size when subtracting, derive asizes and signs, run the
kernel (no `zero_unused_limbs` needed, algo ≠ 0). -/
def static_addsub2 (AddOrSub : Bool) (rop op1 op2 : s_int2) : Bool × s_int2 :=
  let sz2 := if AddOrSub then op2.size else -op2.size
  static_add_impl2 rop op1 op2 (asizeOf op1.size) (asizeOf sz2)
    (signOf op1.size) (signOf sz2)

/-- `static_addsub` for `SSize == 1`. -/
def static_addsub1 (AddOrSub : Bool) (rop op1 op2 : s_int1) : Bool × s_int1 :=
  let sz2 := if AddOrSub then op2.size else -op2.size
  static_add_impl1 rop op1 op2 (signOf op1.size) (signOf sz2)

/-! ### Shift kernels (`static_mul_2exp_impl`, mp++.hpp:2335-2502) -/

/-- Generic shift kernel (algo 0, mp++.hpp:2336-2404).  A zero shift or zero
operand succeeds without touching the destination; otherwise split into limb
shift `ls` and bit shift `rs`; fail when the shifted size would exceed the
buffer, staging into a scratch when the result exactly fills it. -/
def static_mul_2exp_impl0 (ssize : Nat) (rop n : s_intG) (s : Nat) :
    Bool × s_intG :=
  if s = 0 ∨ n.size = 0 then (true, rop)
  else
    let asize := asizeOf n.size
    let sign := signOf n.size
    let ls := s / GMP_NUMB_BITS
    let rs := s % GMP_NUMB_BITS
    let new_asize := asize + ls
    if new_asize < ssize then
      if rs ≠ 0 then
        let sh := mpn_lshift (n.limbs.take asize) rs
        let l1 := (writeAt rop.limbs ls sh.1).set new_asize sh.2
        let l2 := writeAt l1 0 (List.replicate ls 0)
        let sz : Int := new_asize + (if sh.2 ≠ 0 then 1 else 0)
        (true, { rop with size := if sign = -1 then -sz else sz, limbs := l2 })
      else
        let l1 := writeAt rop.limbs ls (n.limbs.take asize)
        let l2 := writeAt l1 0 (List.replicate ls 0)
        let sz : Int := new_asize
        (true, { rop with size := if sign = -1 then -sz else sz, limbs := l2 })
    else if new_asize = ssize then
      if rs ≠ 0 then
        let sh := mpn_lshift (n.limbs.take asize) rs
        if sh.2 ≠ 0 then (false, rop)
        else
          let l1 := writeAt rop.limbs ls sh.1
          let l2 := writeAt l1 0 (List.replicate ls 0)
          let sz : Int := new_asize
          (true, { rop with size := if sign = -1 then -sz else sz, limbs := l2 })
      else
        let l1 := writeAt rop.limbs ls (n.limbs.take asize)
        let l2 := writeAt l1 0 (List.replicate ls 0)
        let sz : Int := new_asize
        (true, { rop with size := if sign = -1 then -sz else sz, limbs := l2 })
    else
      (false, rop)

/-- 1-limb shift kernel (algo 1, mp++.hpp:2406-2427): fail when the shift
reaches the limb width or would push bits out of the top, else one shift. -/
def static_mul_2exp_impl1 (rop n : s_int1) (s : Nat) : Bool × s_int1 :=
  let l := numbMask n.l0
  if s = 0 ∨ l = 0 then (true, rop)
  else if s ≥ GMP_NUMB_BITS ∨ l / 2 ^ (GMP_NUMB_BITS - s) ≠ 0 then (false, rop)
  else (true, { size := n.size, l0 := l * 2 ^ s })

/-- 2-limb shift kernel (algo 2, mp++.hpp:2429-2495).  Note the
`s == GMP_NUMB_BITS` branch reads the low limb of `rop` (not of `n`) when
moving lo into hi, exactly as the source does. -/
def static_mul_2exp_impl2 (rop n : s_int2) (s : Nat) : Bool × s_int2 :=
  if s = 0 ∨ n.size = 0 then (true, rop)
  else
    let asize := asizeOf n.size
    let sign := signOf n.size
    if s ≥ 2 * GMP_NUMB_BITS then (false, rop)
    else if s = GMP_NUMB_BITS then
      if asize = 2 then (false, rop)
      else (true, { size := if sign = -1 then -2 else 2, l0 := 0, l1 := rop.l0 })
    else
      let lo0 := n.l0
      let hi0 := n.l1
      if s > GMP_NUMB_BITS ∧ asize = 2 then (false, rop)
      else
        let lo := if s > GMP_NUMB_BITS then 0 else lo0
        let hi := if s > GMP_NUMB_BITS then n.l0 else hi0
        let s2 := if s > GMP_NUMB_BITS then s - GMP_NUMB_BITS else s
        if numbMask hi / 2 ^ (GMP_NUMB_BITS - s2) ≠ 0 then (false, rop)
        else
          let hiOut := (numbMask hi * 2 ^ s2 + numbMask lo / 2 ^ (GMP_NUMB_BITS - s2)) % W
          let loOut := numbMask (numbMask lo * 2 ^ s2)
          let sz : Int := 1 + (if hiOut ≠ 0 then 1 else 0)
          (true, { size := if sign = -1 then -sz else sz, l0 := loOut, l1 := hiOut })

/-! ### The storage variant and the integer facade (`integer_union`,
`mp_integer`, mp++.hpp:674-900, 907-2511), instantiated at `SSize == 2`
(the size class the spec's concrete scenarios fix).

A dynamic (`mpz`) value is modelled by its mathematical value: the backend
maintains its own sign-magnitude representation, whose `_mp_size` field has
the sign of the value. -/

/-- `mp_integer<2>`: tagged union of static storage and a backend `mpz`.
The tag models the `_mp_alloc == -1` sentinel test of `is_static()`. -/
inductive mp_int2 where
  | st (s : s_int2)
  | dy (z : Int)
  deriving Repr, DecidableEq

/-- The C++ exception classes the core throws, by family:
`std::domain_error` (including `zero_division_error`, mp++.hpp:903-905),
`std::invalid_argument`, `std::overflow_error`. -/
inductive Err where
  | domainErr
  | invalidArg
  | overflowErr
  deriving Repr, DecidableEq

/-- Well-formedness of an `mp_integer<2>`: the static invariants when
static (the dynamic side is the backend's own representation). -/
def wfM (x : mp_int2) : Prop :=
  match x with
  | .st s => wf2 s
  | .dy _ => True

/-- Mathematical value of an `mp_integer<2>`. -/
def valM (x : mp_int2) : Int :=
  match x with
  | .st s => val2 s
  | .dy z => z

/-- `mp_integer::is_static()` (mp++.hpp:964-967). -/
def is_static (x : mp_int2) : Bool :=
  match x with
  | .st _ => true
  | .dy _ => false

/-- `mp_integer::sign()` (mp++.hpp:1858-1865): reads `_mp_size` through the
common prefix of the union (for dynamic storage this is the backend's
signed size, whose sign is the sign of the value). -/
def sign_member (x : mp_int2) : Int :=
  match x with
  | .st s => if s.size ≠ 0 then (if s.size > 0 then 1 else -1) else 0
  | .dy z => if z ≠ 0 then (if z > 0 then 1 else -1) else 0

/-- Modelled from the spec: backend `tdiv_qr` on whole `mpz` values (§6.2) —
truncated division: quotient rounded toward zero, remainder with the sign
of the dividend. -/
def mpz_tdiv_qr (a b : Int) : Int × Int :=
  (a.sign * b.sign * (a.natAbs / b.natAbs : Nat), a.sign * (a.natAbs % b.natAbs : Nat))

/-- Modelled from the spec: backend add on whole `mpz` values (§6.2). -/
def mpz_add (a b : Int) : Int := a + b

/-- `add` free function at `SSize == 2` (mp++.hpp:1562-1575): all-static
operands go through `static_addsub<true>`; on kernel failure (or any
dynamic operand) the result is promoted and the backend adds the views. -/
def add_call (rop op1 op2 : mp_int2) : mp_int2 :=
  match rop, op1, op2 with
  | .st rs, .st s1, .st s2 =>
    let k := static_addsub2 true rs s1 s2
    if k.1 then .st k.2
    else .dy (mpz_add (valM op1) (valM op2))
  | _, _, _ => .dy (mpz_add (valM op1) (valM op2))

/-- `div` free function at `SSize == 2` (mp++.hpp:2307-2329).  `same_qr`
models whether the quotient and remainder arguments are the same object
(`&q == &r`); that check comes first, then the zero-divisor check; both
throw before anything is written.  All-static operands use `static_div`,
otherwise `q` and `r` are promoted and the backend divides the views. -/
def div_call (same_qr : Bool) (q r op1 op2 : mp_int2) :
    Option Err × mp_int2 × mp_int2 :=
  if same_qr then (some .invalidArg, q, r)
  else if sign_member op2 = 0 then (some .domainErr, q, r)
  else
    match q, r, op1, op2 with
    | .st sq, .st sr, .st s1, .st s2 =>
      let d := static_div2 sq sr s1 s2
      (none, .st d.1, .st d.2)
    | _, _, _, _ =>
      let d := mpz_tdiv_qr (valM op1) (valM op2)
      (none, .dy d.1, .dy d.2)

/-- `mul_2exp` free function (mp++.hpp:2505-2507).  The body of the source
function is empty: it returns without reading `n` or `s` and without
writing `rop`. -/
def mul_2exp (rop : mp_int2) (n : mp_int2) (s : Nat) : mp_int2 :=
  rop

/-- `operator==` (mp++.hpp:1866-1879).  When both operands are static it
compares the signed sizes and then the active limbs masked with
`GMP_NUMB_BITS` (the literal bit-count constant, 64); otherwise it
compares through the backend (`mpz_cmp` of the two views). -/
def eq_call (a b : mp_int2) : Bool :=
  match a, b with
  | .st sa, .st sb =>
    sa.size == sb.size &&
      (match sa.size.natAbs with
       | 0 => true
       | 1 => sa.l0 &&& GMP_NUMB_BITS == sb.l0 &&& GMP_NUMB_BITS
       | _ => (sa.l0 &&& GMP_NUMB_BITS == sb.l0 &&& GMP_NUMB_BITS) &&
              (sa.l1 &&& GMP_NUMB_BITS == sb.l1 &&& GMP_NUMB_BITS))
  | _, _ => valM a == valM b

/-- The default-constructed static zero (`static_int()`, mp++.hpp:391-393). -/
def static_zero : s_int2 := { size := 0, l0 := 0, l1 := 0 }

/-- `integer_union` move constructor (mp++.hpp:696-708): returns the new
object and the state the source is left in.  A static source is bit-copied;
a dynamic source's `mpz` is stolen and the source is downgraded to an empty
static. -/
def move_construct (other : mp_int2) : mp_int2 × mp_int2 :=
  match other with
  | .st s => (.st s, .st s)
  | .dy z => (.dy z, .st static_zero)

/-- `integer_union` move assignment (mp++.hpp:778-804): returns the new
state of the target and of the source.  `same` models `this == &other`
(self-assignment is a no-op).  static/static bit-copies; static/dynamic
steals and downgrades the source to an empty static; dynamic/static
destroys the dynamic target and copies; dynamic/dynamic swaps the two
`mpz` values. -/
def move_assign (same : Bool) (this other : mp_int2) : mp_int2 × mp_int2 :=
  if same then (this, other)
  else
    match this, other with
    | .st _, .st s2 => (.st s2, .st s2)
    | .st _, .dy z => (.dy z, .st static_zero)
    | .dy _, .st s2 => (.st s2, .st s2)
    | .dy z1, .dy z2 => (.dy z2, .dy z1)

/-- `conversion_impl<bool>` dispatched through `operator T()`
(mp++.hpp:1002-1006, 1094-1098, 1233-1240): the static path tests
`_mp_size != 0`, the dynamic path tests `mpz_sgn != 0`.  Neither path can
throw. -/
def conversion_bool (x : mp_int2) : Bool :=
  match x with
  | .st s => s.size ≠ 0
  | .dy z => sign_member (.dy z) ≠ 0

/-! ### String conversion (`to_string`, mp++.hpp:976-987; `mpz_to_str`,
mp++.hpp:296-321) -/

/-- Digit alphabet per the spec (§6.3): `0-9`, then `A-Z`, then `a-z`. -/
def digit_char (d : Nat) : Char :=
  if d < 10 then Char.ofNat (48 + d)
  else if d < 36 then Char.ofNat (65 + (d - 10))
  else Char.ofNat (97 + (d - 36))

/-- Modelled from the spec: backend `get_str` (§6.2, §6.3) — the canonical
base-`base` representation: a leading `-` for negatives, no leading zeros
for nonzero values, the single character `0` for zero. -/
def mpz_get_str (v : Int) (base : Nat) : String :=
  if v = 0 then "0"
  else (if v < 0 then "-" else "")
    ++ String.mk (((Nat.digits base v.natAbs).map digit_char).reverse)

/-- `mpz_to_str` (mp++.hpp:296-321): guards against the digit count
overflowing the buffer size computation, then calls the backend's
`get_str`.  Its `base` parameter defaults to 10. -/
def mpz_to_str (v : Int) (base : Nat) : Except Err String :=
  if (Nat.digits base v.natAbs).length > 2 ^ 64 - 1 - 2 then .error .overflowErr
  else .ok (mpz_get_str v base)

/-- `mp_integer::to_string(int base = 10)` (mp++.hpp:976-987): validates
`2 ≤ base ≤ 62`, then converts the view through `mpz_to_str` — which the
source calls without forwarding `base`, so the conversion always uses
`mpz_to_str`'s default base 10. -/
def to_string (x : mp_int2) (base : Int) : Except Err String :=
  if base < 2 ∨ base > 62 then .error .invalidArg
  else mpz_to_str (valM x) 10

/-! ### Construction from floating-point (`static_int` float ctors,
mp++.hpp:606-632; generic `integer_union` ctor, mp++.hpp:709-728)

A floating-point argument is either non-finite or (once `mpz_set_d` /
`mpfr_get_z` has truncated it toward zero) an integer; the embedding
captures exactly that distinction. -/

/-- A floating-point input as the ctor observes it: non-finite, or finite
with its toward-zero truncation. -/
inductive FPVal where
  | fin (z : Int)
  | nan
  | posInf
  | negInf
  deriving Repr, DecidableEq

/-- `std::isfinite`. -/
def fp_finite (f : FPVal) : Bool :=
  match f with
  | .fin _ => true
  | _ => false

/-- `ctor_from_mpz` (mp++.hpp:450-460) composed with the generic
`integer_union` constructor fallback (mp++.hpp:711-728): at most `SSize = 2`
limbs builds a static, otherwise the fail flag routes to a dynamic. -/
def integer_from_mpz (z : Int) : mp_int2 :=
  if z.natAbs ≥ W ^ 2 then .dy z
  else
    let a := z.natAbs
    let asz : Int := if a = 0 then 0 else if a < W then 1 else 2
    .st { size := if z < 0 then -asz else asz, l0 := a % W, l1 := a / W }

/-- `static_int` ctor from `float`/`double` (mp++.hpp:606-616): a non-finite
argument throws `std::invalid_argument` before anything is built; a finite
one goes through the backend's `mpz_set_d` and is ingested. -/
def integer_from_float (f : FPVal) : Except Err mp_int2 :=
  match f with
  | .fin z => .ok (integer_from_mpz z)
  | _ => .error .invalidArg

/-- `static_int` ctor from `long double` (mp++.hpp:617-632): same non-finite
check throwing `std::invalid_argument`; a finite value is truncated through
an MPFR intermediate and ingested. -/
def integer_from_long_double (f : FPVal) : Except Err mp_int2 :=
  match f with
  | .fin z => .ok (integer_from_mpz z)
  | _ => .error .invalidArg

/-! ### Helper lemmas -/

theorem signOf_eq_sign (sz : Int) : signOf sz = sz.sign := by
  unfold signOf
  rcases lt_trichotomy sz 0 with h | h | h
  · rw [if_pos h, Int.sign_eq_neg_one_iff_neg.mpr h]
  · subst h; simp
  · rw [if_neg (by omega), if_pos (by omega : sz ≠ 0), Int.sign_eq_one_iff_pos.mpr h]

theorem sign_natAbs_of_ne {sz : Int} (h : sz ≠ 0) : sz.sign.natAbs = 1 := by
  rcases lt_trichotomy sz 0 with hlt | hEq | hgt
  · rw [Int.sign_eq_neg_one_iff_neg.mpr hlt]; rfl
  · exact absurd hEq h
  · rw [Int.sign_eq_one_iff_pos.mpr hgt]; rfl

theorem numbMask_eq_self {x : Nat} (h : x < W) : numbMask x = x :=
  Nat.mod_eq_of_lt h

/-- Destructured form of the `SSize == 2` invariants. -/
theorem wf2_dest {s : s_int2} (h : wf2 s) :
    s.l0 < W ∧ s.l1 < W ∧ s.size.natAbs ≤ 2 ∧ (s.size = 0 → s.l0 = 0 ∧ s.l1 = 0) ∧
      (s.size.natAbs = 1 → s.l0 ≠ 0 ∧ s.l1 = 0) ∧ (s.size.natAbs = 2 → s.l1 ≠ 0) := by
  obtain ⟨hl0, hl1, hsz, hz, hzt, h1, h2⟩ := h
  refine ⟨hl0, hl1, hsz, ?_, ?_, ?_⟩
  · intro h0
    exact ⟨hz h0, hzt (by simp [h0])⟩
  · intro h1'
    refine ⟨?_, hzt (by omega)⟩
    intro h0
    exact h1 h1' (by simp [numbMask, h0])
  · intro h2'
    intro h0
    exact h2 h2' (by simp [numbMask, h0])

/-- `val2` as sign times the cast of the natural magnitude. -/
theorem val2_eq (s : s_int2) :
    val2 s = s.size.sign * ((s.l0 + W * s.l1 : Nat) : Int) := by
  unfold val2; push_cast; ring

theorem natAbs_val2 {s : s_int2} (h : wf2 s) :
    (val2 s).natAbs = s.l0 + W * s.l1 := by
  obtain ⟨hl0, hl1, hsz, hz, h1, h2⟩ := wf2_dest h
  rcases eq_or_ne s.size 0 with h0 | h0
  · obtain ⟨e0, e1⟩ := hz h0
    simp [val2, h0, e0, e1]
  · rw [val2_eq, Int.natAbs_mul, Int.natAbs_ofNat, sign_natAbs_of_ne h0, one_mul]

theorem val2_eq_zero_iff {s : s_int2} (h : wf2 s) : val2 s = 0 ↔ s.size = 0 := by
  obtain ⟨hl0, hl1, hsz, hz, h1, h2⟩ := wf2_dest h
  constructor
  · intro hv
    by_contra h0
    have hna := natAbs_val2 h
    rw [hv] at hna
    simp only [Int.natAbs_zero] at hna
    have hne : s.size.natAbs ≠ 0 := fun hc => h0 (Int.natAbs_eq_zero.mp hc)
    have hnz : s.size.natAbs = 1 ∨ s.size.natAbs = 2 := by omega
    rcases hnz with h1' | h2'
    · have := (h1 h1').1
      omega
    · have hl := h2 h2'
      have : W ≤ W * s.l1 := Nat.le_mul_of_pos_right W (by omega)
      have hW : 0 < W := by norm_num [W]
      omega
  · intro h0
    obtain ⟨e0, e1⟩ := hz h0
    simp [val2, h0, e0, e1]

theorem sign_val2 {s : s_int2} (h : wf2 s) : (val2 s).sign = s.size.sign := by
  rcases eq_or_ne s.size 0 with h0 | h0
  · have hv : val2 s = 0 := (val2_eq_zero_iff h).mpr h0
    rw [hv, h0]
  · have hv : val2 s ≠ 0 := fun hv => h0 ((val2_eq_zero_iff h).mp hv)
    have hpos : (0 : Int) < ((s.l0 + W * s.l1 : Nat) : Int) := by
      rcases Nat.eq_zero_or_pos (s.l0 + W * s.l1) with hc | hc
      · exact absurd (by rw [val2_eq, hc]; simp) hv
      · exact_mod_cast hc
    rw [val2_eq, Int.sign_mul, Int.sign_eq_one_iff_pos.mpr hpos, mul_one, Int.sign_sign]

/-- `sign_member` agrees with the sign of the value (for static storage this
needs the invariants; for dynamic storage it is the backend's contract). -/
theorem sign_member_eq_sign {x : mp_int2} (h : wfM x) :
    sign_member x = (valM x).sign := by
  cases x with
  | dy z =>
    show (if z ≠ 0 then if z > 0 then 1 else -1 else 0) = z.sign
    rcases lt_trichotomy z 0 with hlt | hEq | hgt
    · rw [Int.sign_eq_neg_one_iff_neg.mpr hlt, if_pos (by omega : z ≠ 0),
        if_neg (by omega : ¬ z > 0)]
    · subst hEq; simp
    · rw [Int.sign_eq_one_iff_pos.mpr hgt, if_pos (by omega : z ≠ 0), if_pos hgt]
  | st s =>
    show (if s.size ≠ 0 then if s.size > 0 then 1 else -1 else 0) = (val2 s).sign
    rw [sign_val2 h]
    rcases lt_trichotomy s.size 0 with hlt | hEq | hgt
    · rw [Int.sign_eq_neg_one_iff_neg.mpr hlt, if_pos (by omega : s.size ≠ 0),
        if_neg (by omega : ¬ s.size > 0)]
    · rw [hEq]; simp
    · rw [Int.sign_eq_one_iff_pos.mpr hgt, if_pos (by omega : s.size ≠ 0), if_pos hgt]

/-! ### C2 — `mul_2exp` -/

/-- C2: the claim states `mul_2exp(r, a, s)` sets `r` to `a * 2^s`
(promoting when needed), and that `mul_2exp(r, -5, 130)` with `SSize == 2`
yields `-5 * 2^130`.  The source function's body is empty, so `r` is
returned exactly as it came in: at the claim's own input the result value
is `0`, not `-5 * 2^130`. -/
theorem mul_2exp_noop_code_bug :
    (∀ rop n s, mul_2exp rop n s = rop) ∧
      valM (mul_2exp (.st static_zero) (.st { size := -1, l0 := 5, l1 := 0 }) 130) = 0 ∧
      (0 : Int) ≠ -5 * 2 ^ 130 := by
  refine ⟨fun rop n s => rfl, ?_, by norm_num⟩
  simp [mul_2exp, valM, static_zero, val2]

/-! ### C3 — `operator==` -/

/-- C3: the claim states `operator==` is true iff the signed sizes match and
the active limbs masked with `NUMB_MASK` match (equivalently, iff the values
are equal), in particular for two static operands.  The static/static path
of the source masks with `GMP_NUMB_BITS` (the constant 64) instead, so the
well-formed static values 1 and 2 compare equal while their values (and
their `NUMB_MASK`-masked limbs) differ. -/
theorem eq_call_numb_bits_code_bug :
    eq_call (.st { size := 1, l0 := 1, l1 := 0 }) (.st { size := 1, l0 := 2, l1 := 0 }) = true ∧
      valM (.st { size := 1, l0 := 1, l1 := 0 }) ≠ valM (.st { size := 1, l0 := 2, l1 := 0 }) ∧
      numbMask 1 ≠ numbMask 2 ∧
      wf2 { size := 1, l0 := 1, l1 := 0 } ∧ wf2 { size := 1, l0 := 2, l1 := 0 } := by
  refine ⟨by decide, ?_, ?_, ?_, ?_⟩
  · simp [valM, val2, W]
  · simp [numbMask, W]
  · refine ⟨by norm_num [W], by norm_num [W], by norm_num, ?_, ?_, ?_, ?_⟩ <;>
      simp [numbMask, W]
  · refine ⟨by norm_num [W], by norm_num [W], by norm_num, ?_, ?_, ?_, ?_⟩ <;>
      simp [numbMask, W]

/-! ### C6 — move semantics -/

/-- C6 counterexample: the claim states that after *every* move assignment
with a dynamic source the moved-from integer is left as static zero.  When
the target is also dynamic the source keeps the target's old `mpz` (the
source swaps), so after `dy 5 = move(dy 7)` the moved-from object is the
dynamic value 5, not a static zero. -/
theorem move_assign_dyn_dyn_counterexample :
    (move_assign false (.dy 5) (.dy 7)).2 = .dy 5 ∧
      (move_assign false (.dy 5) (.dy 7)).2 ≠ .st static_zero ∧
      is_static (move_assign false (.dy 5) (.dy 7)).2 = false := by
  refine ⟨rfl, by decide, rfl⟩

/-- C6 amended: move construction from a dynamic source, and move assignment
from a dynamic source into a *static* target, leave the source static-zero;
a static source is bit-copied (source unchanged); move assignment between
two dynamic objects swaps the values, leaving the source dynamic with the
target's former value. -/
theorem move_semantics_amended :
    (∀ s, move_construct (.st s) = (.st s, .st s)) ∧
      (∀ z, move_construct (.dy z) = (.dy z, .st static_zero)) ∧
      (∀ t s, move_assign false t (.st s) = (.st s, .st s)) ∧
      (∀ s z, move_assign false (.st s) (.dy z) = (.dy z, .st static_zero)) ∧
      (∀ z1 z2, move_assign false (.dy z1) (.dy z2) = (.dy z2, .dy z1)) := by
  refine ⟨fun s => rfl, fun z => rfl, fun t s => ?_, fun s z => rfl, fun z1 z2 => rfl⟩
  cases t <;> rfl

/-! ### C9 — construction from non-finite floating-point -/

/-- C9 counterexample: the claim states a non-finite floating-point argument
raises a `#domain` error.  The source throws `std::invalid_argument`
("Cannot init integer from non-finite floating-point value."), which is not
in the `domain_error` family — consistent with the error taxonomy (§7). -/
theorem float_ctor_nan_counterexample :
    integer_from_float FPVal.nan = .error Err.invalidArg ∧
      integer_from_float FPVal.nan ≠ .error Err.domainErr := by
  refine ⟨rfl, fun hc => ?_⟩
  have : Err.invalidArg = Err.domainErr := by
    have h2 : (Except.error Err.invalidArg : Except Err mp_int2) = .error Err.domainErr := hc
    injection h2
  cases this

/-- C9 amended: constructing an integer from any non-finite floating-point
value (`float`/`double` or `long double` path) raises `#invalid_argument`,
and no integer is produced (the throw happens before any state is built). -/
theorem float_ctor_nonfinite_amended (f : FPVal) (h : fp_finite f = false) :
    integer_from_float f = .error Err.invalidArg ∧
      integer_from_long_double f = .error Err.invalidArg := by
  cases f <;> simp_all [fp_finite, integer_from_float, integer_from_long_double]

/-- Witness for the amended C9 theorem at the concrete input `NaN`. -/
theorem float_ctor_nonfinite_amended_witness :
    fp_finite FPVal.nan = false ∧
      integer_from_float FPVal.nan = .error Err.invalidArg ∧
        integer_from_long_double FPVal.nan = .error Err.invalidArg :=
  ⟨rfl, float_ctor_nonfinite_amended FPVal.nan rfl⟩

/-! ### C10 — explicit conversion to `bool` -/

/-- C10: for every integer value, static or dynamic, the explicit conversion
to `bool` returns `true` iff the value is nonzero.  Neither conversion path
contains a throw, so the conversion never raises (the embedding is a total
function). -/
theorem bool_conversion_correct (x : mp_int2) (h : wfM x) :
    conversion_bool x = true ↔ valM x ≠ 0 := by
  have hs := sign_member_eq_sign h
  cases x with
  | st s =>
    show decide (s.size ≠ 0) = true ↔ valM (.st s) ≠ 0
    rw [decide_eq_true_eq]
    exact (not_congr (val2_eq_zero_iff h)).symm
  | dy z =>
    show decide (sign_member (.dy z) ≠ 0) = true ↔ valM (.dy z) ≠ 0
    rw [decide_eq_true_eq, hs]
    show ¬ (valM (.dy z)).sign = 0 ↔ _
    exact not_congr Int.sign_eq_zero_iff_zero

/-- Witness for C10 at the static value 5 and the dynamic value -7. -/
theorem bool_conversion_correct_witness :
    (wfM (mp_int2.st { size := 1, l0 := 5, l1 := 0 }) ∧
      (conversion_bool (.st { size := 1, l0 := 5, l1 := 0 }) = true ↔
        valM (.st { size := 1, l0 := 5, l1 := 0 }) ≠ 0)) ∧
      (wfM (mp_int2.dy (-7)) ∧
        (conversion_bool (.dy (-7)) = true ↔ valM (.dy (-7)) ≠ 0)) := by
  have hw : wfM (mp_int2.st { size := 1, l0 := 5, l1 := 0 }) := by
    show wf2 _
    unfold wf2
    decide
  exact ⟨⟨hw, bool_conversion_correct _ hw⟩,
    ⟨trivial, bool_conversion_correct (.dy (-7)) trivial⟩⟩

/-! ### C7 — `div` error cases -/

/-- C7 counterexample: the claim states `div` raises `#domain`
(`zero_division_error`) **iff** the divisor is zero.  When the divisor is
zero *and* quotient and remainder are the same object, the source's
same-object check fires first and `std::invalid_argument` is raised instead,
so the biconditional fails at that input. -/
theorem div_error_precedence_counterexample :
    ¬ (((div_call true (.st static_zero) (.st static_zero) (.st static_zero)
          (.st static_zero)).1 = some Err.domainErr) ↔
        valM (.st static_zero) = 0) := by
  intro hiff
  have hv : valM (mp_int2.st static_zero) = 0 := by simp [valM, static_zero, val2]
  have hc := hiff.mpr hv
  simp [div_call] at hc

/-- C7 amended: `div` raises `#invalid_argument` iff `q` and `r` are the
same object (this check comes first); it raises `#domain`
(`zero_division_error`) iff they are distinct and the divisor is zero; in
either error case it raises before `q` or `r` is modified, leaving both
unchanged. -/
theorem div_error_cases_amended (same : Bool) (q r a b : mp_int2) (hb : wfM b) :
    ((div_call same q r a b).1 = some Err.invalidArg ↔ same = true) ∧
      ((div_call same q r a b).1 = some Err.domainErr ↔
        (same = false ∧ valM b = 0)) ∧
      ((div_call same q r a b).1 ≠ none → (div_call same q r a b).2 = (q, r)) := by
  have hsgn : sign_member b = 0 ↔ valM b = 0 := by
    rw [sign_member_eq_sign hb]
    exact Int.sign_eq_zero_iff_zero
  cases same with
  | true => simp [div_call]
  | false =>
    by_cases hz : sign_member b = 0
    · simp [div_call, hz, hsgn.mp hz]
    · have hv : ¬ valM b = 0 := fun hc => hz (hsgn.mpr hc)
      cases q <;> cases r <;> cases a <;> cases b <;>
        simp [div_call, hz, hv]

/-- Witness for the amended C7 theorem: at `same = true` with dynamic zero
divisor the call reports `#invalid_argument` and leaves `q`, `r` unchanged. -/
theorem div_error_cases_amended_witness :
    ((div_call true (.st static_zero) (.st static_zero) (.st static_zero)
        (.dy 0)).1 = some Err.invalidArg ↔ true = true) ∧
      ((div_call true (.st static_zero) (.st static_zero) (.st static_zero)
          (.dy 0)).1 = some Err.domainErr ↔
        (true = false ∧ valM (mp_int2.dy 0) = 0)) ∧
      ((div_call true (.st static_zero) (.st static_zero) (.st static_zero)
          (.dy 0)).1 ≠ none →
        (div_call true (.st static_zero) (.st static_zero) (.st static_zero)
          (.dy 0)).2 = (.st static_zero, .st static_zero)) :=
  div_error_cases_amended true _ _ _ (.dy 0) trivial

/-! ### C5 — full-buffer opposite-sign static addition -/

/-- The 2-limb borrow chain computes the exact difference when the first
operand's magnitude is at least the second's. -/
theorem sub2_eq {a0 a1 b0 b1 : Nat} (ha0 : a0 < W) (ha1 : a1 < W) (hb0 : b0 < W)
    (hb1 : b1 < W) (hge : b0 + W * b1 ≤ a0 + W * a1) :
    submod a0 b0 + W * submod (submod a1 b1) (if a0 < b0 then 1 else 0)
      = (a0 + W * a1) - (b0 + W * b1) := by
  simp only [submod, W] at *
  split_ifs <;> omega

/-- `compare_limbs_2` at asize 2 decides the order of the two-limb values. -/
theorem compare_limbs_2_spec {a0 a1 b0 b1 : Nat} (ha0 : a0 < W) (hb0 : b0 < W) :
    compare_limbs_2 a0 a1 b0 b1 2 ≥ 0 ↔ b0 + W * b1 ≤ a0 + W * a1 := by
  unfold compare_limbs_2
  simp only [W] at *
  split_ifs <;> constructor <;> intro h <;> omega

/-- Value computed by the opposite-sign branch of the 2-limb add kernel when
the first pair's magnitude is ≥ the second's (the branch that also handles
a zero difference). -/
theorem impl2_sub_val {x0 x1 y0 y1 : Nat} (sign : Int)
    (hx0 : x0 < W) (hx1 : x1 < W) (hy0 : y0 < W) (hy1 : y1 < W)
    (hge : y0 + W * y1 ≤ x0 + W * x1) (hsgn : sign = 1 ∨ sign = -1) :
    (if submod (submod x1 y1) (if x0 < y0 then 1 else 0) ≠ 0 then sign + sign
        else if submod x0 y0 ≠ 0 then sign else 0).sign *
        ((submod x0 y0 : Int) + (W : Int) *
          (submod (submod x1 y1) (if x0 < y0 then 1 else 0) : Int))
      = sign * (((x0 : Int) + (W : Int) * (x1 : Int))
          - ((y0 : Int) + (W : Int) * (y1 : Int))) := by
  have hsub := sub2_eq hx0 hx1 hy0 hy1 hge
  set lo := submod x0 y0 with hlo
  set hi := submod (submod x1 y1) (if x0 < y0 then 1 else 0) with hhi
  have hcast : ((lo : Int) + (W : Int) * (hi : Int))
      = ((x0 : Int) + (W : Int) * (x1 : Int))
        - ((y0 : Int) + (W : Int) * (y1 : Int)) := by
    zify [hge] at hsub
    linarith [hsub]
  rw [← hcast]
  by_cases hhi0 : hi = 0
  · by_cases hlo0 : lo = 0
    · rw [if_neg (by simp [hhi0]), if_neg (by simp [hlo0]), hhi0, hlo0]
      simp
    · rw [if_neg (by simp [hhi0]), if_pos hlo0]
      rcases hsgn with e | e <;> subst e
      · have h1 : ((1 : Int)).sign = 1 := rfl
        rw [h1]
      · have h1 : ((-1 : Int)).sign = -1 := rfl
        rw [h1]
  · rw [if_pos hhi0]
    rcases hsgn with e | e <;> subst e
    · have h1 : ((1 : Int) + 1).sign = 1 := rfl
      rw [h1]
    · have h1 : ((-1 : Int) + -1).sign = -1 := rfl
      rw [h1]

/-- Like `impl2_sub_val`, but for the strict branch (second magnitude
strictly larger, taken with operands swapped), whose size computation has no
zero case. -/
theorem impl2_sub_val_strict {x0 x1 y0 y1 : Nat} (sign : Int)
    (hx0 : x0 < W) (hx1 : x1 < W) (hy0 : y0 < W) (hy1 : y1 < W)
    (hgt : y0 + W * y1 < x0 + W * x1) (hsgn : sign = 1 ∨ sign = -1) :
    (if submod (submod x1 y1) (if x0 < y0 then 1 else 0) ≠ 0 then sign + sign
        else sign).sign *
        ((submod x0 y0 : Int) + (W : Int) *
          (submod (submod x1 y1) (if x0 < y0 then 1 else 0) : Int))
      = sign * (((x0 : Int) + (W : Int) * (x1 : Int))
          - ((y0 : Int) + (W : Int) * (y1 : Int))) := by
  have hsub := sub2_eq hx0 hx1 hy0 hy1 (le_of_lt hgt)
  set lo := submod x0 y0 with hlo
  set hi := submod (submod x1 y1) (if x0 < y0 then 1 else 0) with hhi
  have hcast : ((lo : Int) + (W : Int) * (hi : Int))
      = ((x0 : Int) + (W : Int) * (x1 : Int))
        - ((y0 : Int) + (W : Int) * (y1 : Int)) := by
    zify [le_of_lt hgt] at hsub
    linarith [hsub]
  rw [← hcast]
  by_cases hhi0 : hi = 0
  · rw [if_neg (by simp [hhi0])]
    rcases hsgn with e | e <;> subst e
    · have h1 : ((1 : Int)).sign = 1 := rfl
      rw [h1]
    · have h1 : ((-1 : Int)).sign = -1 := rfl
      rw [h1]
  · rw [if_pos hhi0]
    rcases hsgn with e | e <;> subst e
    · have h1 : ((1 : Int) + 1).sign = 1 := rfl
      rw [h1]
    · have h1 : ((-1 : Int) + -1).sign = -1 := rfl
      rw [h1]

/-- C5: with `SSize == 2` and 64-bit limbs, when both operands of `add` are
static with opposite signs and both exactly fill the static buffer
(asize 2), the static addition kernel cannot falsely fail: `static_addsub`
succeeds, computes the exact sum, and `add` keeps the result in static
storage. -/
theorem static_add_full_opposite_ok (rop a b : s_int2) (ha : wf2 a) (hb : wf2 b)
    (ha2 : a.size.natAbs = 2) (hb2 : b.size.natAbs = 2)
    (hop : a.size.sign ≠ b.size.sign) :
    (static_addsub2 true rop a b).1 = true ∧
      val2 (static_addsub2 true rop a b).2 = val2 a + val2 b ∧
      add_call (.st rop) (.st a) (.st b) = .st (static_addsub2 true rop a b).2 ∧
      is_static (add_call (.st rop) (.st a) (.st b)) = true := by
  obtain ⟨hal0, hal1, hasz, haz, ha1, hatop⟩ := wf2_dest ha
  obtain ⟨hbl0, hbl1, hbsz, hbz, hb1, hbtop⟩ := wf2_dest hb
  have hA : a.size = 2 ∨ a.size = -2 := by omega
  have hB : b.size = 2 ∨ b.size = -2 := by omega
  have hcmp := @compare_limbs_2_spec a.l0 a.l1 b.l0 b.l1 hal0 hbl0
  have s2 : Int.sign 2 = 1 := rfl
  have sm2 : Int.sign (-2) = -1 := rfl
  have key : (static_addsub2 true rop a b).1 = true ∧
      val2 (static_addsub2 true rop a b).2 = val2 a + val2 b := by
    rcases hA with eA | eA <;> rcases hB with eB | eB
    · rw [eA, eB] at hop; exact absurd rfl hop
    · -- a positive, b negative
      have e1 : static_addsub2 true rop a b = static_add_impl2 rop a b 2 2 1 (-1) := by
        unfold static_addsub2
        rw [eA, eB]
        rfl
      unfold static_add_impl2 at e1
      rw [if_neg (by norm_num : ¬ (1 : Int) = -1)] at e1
      by_cases hord : b.l0 + W * b.l1 ≤ a.l0 + W * a.l1
      · rw [if_pos (Or.inr ⟨rfl, hcmp.mpr hord⟩)] at e1
        rw [e1]
        refine ⟨rfl, ?_⟩
        show _ = val2 a + val2 b
        unfold val2
        rw [eA, eB, s2, sm2]
        have hv := impl2_sub_val 1 hal0 hal1 hbl0 hbl1 hord (Or.inl rfl)
        push_cast at hv ⊢
        linarith [hv]
      · rw [if_neg (by
          rintro (hgtc | ⟨-, hgec⟩)
          · exact absurd hgtc (by norm_num)
          · exact hord (hcmp.mp hgec))] at e1
        rw [e1]
        refine ⟨rfl, ?_⟩
        show _ = val2 a + val2 b
        unfold val2
        rw [eA, eB, s2, sm2]
        have hord' : a.l0 + W * a.l1 < b.l0 + W * b.l1 := by omega
        have hv := impl2_sub_val_strict (-1) hbl0 hbl1 hal0 hal1 hord' (Or.inr rfl)
        push_cast at hv ⊢
        linarith [hv]
    · -- a negative, b positive
      have e1 : static_addsub2 true rop a b = static_add_impl2 rop a b 2 2 (-1) 1 := by
        unfold static_addsub2
        rw [eA, eB]
        rfl
      unfold static_add_impl2 at e1
      rw [if_neg (by norm_num : ¬ (-1 : Int) = 1)] at e1
      by_cases hord : b.l0 + W * b.l1 ≤ a.l0 + W * a.l1
      · rw [if_pos (Or.inr ⟨rfl, hcmp.mpr hord⟩)] at e1
        rw [e1]
        refine ⟨rfl, ?_⟩
        show _ = val2 a + val2 b
        unfold val2
        rw [eA, eB, s2, sm2]
        have hv := impl2_sub_val (-1) hal0 hal1 hbl0 hbl1 hord (Or.inr rfl)
        push_cast at hv ⊢
        linarith [hv]
      · rw [if_neg (by
          rintro (hgtc | ⟨-, hgec⟩)
          · exact absurd hgtc (by norm_num)
          · exact hord (hcmp.mp hgec))] at e1
        rw [e1]
        refine ⟨rfl, ?_⟩
        show _ = val2 a + val2 b
        unfold val2
        rw [eA, eB, s2, sm2]
        have hord' : a.l0 + W * a.l1 < b.l0 + W * b.l1 := by omega
        have hv := impl2_sub_val_strict 1 hbl0 hbl1 hal0 hal1 hord' (Or.inl rfl)
        push_cast at hv ⊢
        linarith [hv]
    · rw [eA, eB] at hop; exact absurd rfl hop
  refine ⟨key.1, key.2, ?_, ?_⟩
  · show (if (static_addsub2 true rop a b).1 then
        mp_int2.st (static_addsub2 true rop a b).2
      else mp_int2.dy (mpz_add (valM (.st a)) (valM (.st b)))) = _
    rw [key.1]
    simp
  · show is_static (if (static_addsub2 true rop a b).1 then
        mp_int2.st (static_addsub2 true rop a b).2
      else mp_int2.dy (mpz_add (valM (.st a)) (valM (.st b)))) = true
    rw [key.1]
    simp [is_static]

/-- Witness for C5 at the spec's concrete scenario:
`a = 2^127 - 1` (limbs `2^64-1`, `2^63-1`), `b = -2^127` (limbs `0`, `2^63`);
the kernel succeeds and the sum is `-1`. -/
theorem static_add_full_opposite_ok_witness :
    wf2 { size := 2, l0 := 2 ^ 64 - 1, l1 := 2 ^ 63 - 1 } ∧
      wf2 { size := -2, l0 := 0, l1 := 2 ^ 63 } ∧
      ((static_addsub2 true static_zero { size := 2, l0 := 2 ^ 64 - 1, l1 := 2 ^ 63 - 1 }
          { size := -2, l0 := 0, l1 := 2 ^ 63 }).1 = true ∧
        val2 (static_addsub2 true static_zero { size := 2, l0 := 2 ^ 64 - 1, l1 := 2 ^ 63 - 1 }
            { size := -2, l0 := 0, l1 := 2 ^ 63 }).2
          = val2 { size := 2, l0 := 2 ^ 64 - 1, l1 := 2 ^ 63 - 1 }
            + val2 { size := -2, l0 := 0, l1 := 2 ^ 63 } ∧
        add_call (.st static_zero) (.st { size := 2, l0 := 2 ^ 64 - 1, l1 := 2 ^ 63 - 1 })
            (.st { size := -2, l0 := 0, l1 := 2 ^ 63 })
          = .st (static_addsub2 true static_zero { size := 2, l0 := 2 ^ 64 - 1, l1 := 2 ^ 63 - 1 }
              { size := -2, l0 := 0, l1 := 2 ^ 63 }).2 ∧
        is_static (add_call (.st static_zero)
            (.st { size := 2, l0 := 2 ^ 64 - 1, l1 := 2 ^ 63 - 1 })
            (.st { size := -2, l0 := 0, l1 := 2 ^ 63 })) = true) ∧
      val2 { size := 2, l0 := 2 ^ 64 - 1, l1 := 2 ^ 63 - 1 }
          + val2 { size := -2, l0 := 0, l1 := 2 ^ 63 } = -1 := by
  have hwa : wf2 { size := 2, l0 := 2 ^ 64 - 1, l1 := 2 ^ 63 - 1 } := by
    unfold wf2 numbMask W
    decide
  have hwb : wf2 { size := -2, l0 := 0, l1 := 2 ^ 63 } := by
    unfold wf2 numbMask W
    decide
  refine ⟨hwa, hwb,
    static_add_full_opposite_ok static_zero _ _ hwa hwb rfl rfl (by decide), ?_⟩
  have h1 : Int.sign 2 = 1 := rfl
  norm_num [val2, W, h1]

/-! ### C8 — failed static kernels leave the destination untouched -/

set_option maxHeartbeats 1600000 in
/-- C8: whenever a static add/sub kernel (generic, 1-limb or 2-limb — `sub`
shares these kernels through `static_addsub`'s sign flip) or a static shift
kernel reports failure (`false`), the destination operand is returned
exactly as it came in: every limb and the size field are unchanged.  In the
source every `return false` precedes the first write to `rop`, which is what
makes retry-after-promotion sound even for aliased operands. -/
theorem static_kernel_failure_untouched :
    (∀ ssize rop op1 op2 a1 a2 s1 s2,
      (static_add_impl0 ssize rop op1 op2 a1 a2 s1 s2).1 = false →
        (static_add_impl0 ssize rop op1 op2 a1 a2 s1 s2).2 = rop) ∧
      (∀ rop op1 op2 s1 s2,
        (static_add_impl1 rop op1 op2 s1 s2).1 = false →
          (static_add_impl1 rop op1 op2 s1 s2).2 = rop) ∧
      (∀ rop op1 op2 a1 a2 s1 s2,
        (static_add_impl2 rop op1 op2 a1 a2 s1 s2).1 = false →
          (static_add_impl2 rop op1 op2 a1 a2 s1 s2).2 = rop) ∧
      (∀ ssize rop n s,
        (static_mul_2exp_impl0 ssize rop n s).1 = false →
          (static_mul_2exp_impl0 ssize rop n s).2 = rop) ∧
      (∀ rop n s,
        (static_mul_2exp_impl1 rop n s).1 = false →
          (static_mul_2exp_impl1 rop n s).2 = rop) ∧
      (∀ rop n s,
        (static_mul_2exp_impl2 rop n s).1 = false →
          (static_mul_2exp_impl2 rop n s).2 = rop) := by
  refine ⟨?_, ?_, ?_, ?_, ?_, ?_⟩
  · intro ssize rop op1 op2 a1 a2 s1 s2
    simp only [static_add_impl0]
    split_ifs <;> intro h <;> simp_all
  · intro rop op1 op2 s1 s2
    simp only [static_add_impl1]
    split_ifs <;> intro h <;> simp_all
  · intro rop op1 op2 a1 a2 s1 s2
    simp only [static_add_impl2]
    split_ifs <;> intro h <;> simp_all
  · intro ssize rop n s
    simp only [static_mul_2exp_impl0]
    split_ifs <;> intro h <;> simp_all
  · intro rop n s
    simp only [static_mul_2exp_impl1]
    split_ifs <;> intro h <;> simp_all
  · intro rop n s
    simp only [static_mul_2exp_impl2]
    split_ifs <;> intro h <;> simp_all

/-- Witness for C8: one concrete failing input per kernel; each failure
hands the destination back unchanged. -/
theorem static_kernel_failure_untouched_witness :
    (static_add_impl0 3 { size := 0, limbs := [0, 0, 0] }
        { size := 3, limbs := [1, 2, 2 ^ 63] } { size := 1, limbs := [1, 0, 0] }
        3 1 1 1).2 = { size := 0, limbs := [0, 0, 0] } ∧
      (static_add_impl1 { size := 0, l0 := 0 } { size := 1, l0 := 2 ^ 64 - 1 }
          { size := 1, l0 := 1 } 1 1).2 = { size := 0, l0 := 0 } ∧
      (static_add_impl2 static_zero { size := 2, l0 := 0, l1 := 2 ^ 63 }
          { size := 2, l0 := 0, l1 := 2 ^ 63 } 2 2 1 1).2 = static_zero ∧
      (static_mul_2exp_impl0 3 { size := 0, limbs := [0, 0, 0] }
          { size := 3, limbs := [1, 1, 1] } 192).2 = { size := 0, limbs := [0, 0, 0] } ∧
      (static_mul_2exp_impl1 { size := 0, l0 := 0 } { size := 1, l0 := 2 ^ 63 } 1).2
        = { size := 0, l0 := 0 } ∧
      (static_mul_2exp_impl2 static_zero { size := 1, l0 := 1, l1 := 0 } 128).2
        = static_zero :=
  ⟨static_kernel_failure_untouched.1 3 _ _ _ 3 1 1 1 rfl,
    static_kernel_failure_untouched.2.1 _ _ _ 1 1 rfl,
    static_kernel_failure_untouched.2.2.1 _ _ _ 2 2 1 1 rfl,
    static_kernel_failure_untouched.2.2.2.1 3 _ _ 192 rfl,
    static_kernel_failure_untouched.2.2.2.2.1 _ _ 1 rfl,
    static_kernel_failure_untouched.2.2.2.2.2 _ _ 128 rfl⟩

/-! ### C1 — division is truncated Euclidean division on every path -/

/-- The division postcondition of the spec: `q*b + r == a`, `|r| < |b|`,
and `r == 0` or `sign(r) == sign(a)`. -/
def DivPost (a b q r : Int) : Prop :=
  q * b + r = a ∧ r.natAbs < b.natAbs ∧ (r = 0 ∨ r.sign = a.sign)

theorem sign_cases (x : Int) :
    (x.sign = 1 ∧ (x.natAbs : Int) = x) ∨ (x.sign = 0 ∧ x = 0) ∨
      (x.sign = -1 ∧ (x.natAbs : Int) = -x) := by
  rcases lt_trichotomy x 0 with h | h | h
  · refine Or.inr (Or.inr ⟨Int.sign_eq_neg_one_iff_neg.mpr h, ?_⟩)
    omega
  · exact Or.inr (Or.inl ⟨by rw [h]; rfl, h⟩)
  · refine Or.inl ⟨Int.sign_eq_one_iff_pos.mpr h, ?_⟩
    omega

/-- The backend's truncated division satisfies the spec's division
postcondition. -/
theorem mpz_tdiv_qr_post (a b : Int) (hb : b ≠ 0) :
    DivPost a b (mpz_tdiv_qr a b).1 (mpz_tdiv_qr a b).2 := by
  have hbn : 0 < b.natAbs := Int.natAbs_pos.mpr hb
  have h0 := Nat.div_add_mod a.natAbs b.natAbs
  have hdm : ((b.natAbs : Int)) * ((a.natAbs / b.natAbs : Nat) : Int)
      + ((a.natAbs % b.natAbs : Nat) : Int) = (a.natAbs : Int) := by
    exact_mod_cast h0
  unfold mpz_tdiv_qr DivPost
  refine ⟨?_, ?_, ?_⟩
  · have h1 : a.sign * (a.natAbs : Int) = a := Int.sign_mul_natAbs a
    have h2 : b.sign * (b.natAbs : Int) = b := Int.sign_mul_natAbs b
    have h3 : b.sign * b.sign = 1 := by
      rcases sign_cases b with ⟨e, -⟩ | ⟨e, hbv⟩ | ⟨e, -⟩
      · rw [e]; norm_num
      · exact absurd hbv hb
      · rw [e]; norm_num
    linear_combination h1 + a.sign * hdm
      - a.sign * b.sign * ((a.natAbs / b.natAbs : Nat) : Int) * h2
      + a.sign * ((a.natAbs / b.natAbs : Nat) : Int) * (b.natAbs : Int) * h3
  · have hmod : a.natAbs % b.natAbs < b.natAbs := Nat.mod_lt _ hbn
    rw [Int.natAbs_mul, Int.natAbs_ofNat]
    have hsle : a.sign.natAbs ≤ 1 := by
      rcases sign_cases a with ⟨e, -⟩ | ⟨e, -⟩ | ⟨e, -⟩ <;> rw [e] <;> norm_num
    calc a.sign.natAbs * (a.natAbs % b.natAbs)
        ≤ 1 * (a.natAbs % b.natAbs) := Nat.mul_le_mul_right _ hsle
      _ < b.natAbs := by rwa [one_mul]
  · by_cases hr : a.natAbs % b.natAbs = 0
    · left
      rw [hr]
      simp
    · right
      rw [Int.sign_mul, Int.sign_sign]
      have : ((a.natAbs % b.natAbs : Nat) : Int).sign = 1 := by
        apply Int.sign_eq_one_iff_pos.mpr
        exact_mod_cast Nat.pos_of_ne_zero hr
      rw [this, mul_one]

/-- `sign` of a value times the cast of its magnitude remainder: the common
shape in which the division kernels write their results. -/
theorem sign_combine {s1 s2 : Int} (h1 : s1 = 1 ∨ s1 = -1) (h2 : s2 = 1 ∨ s2 = -1) :
    (if s1 = s2 then (1 : Int) else -1) = s1 * s2 := by
  rcases h1 with e | e <;> rcases h2 with f | f <;> subst e <;> subst f <;> norm_num

/-! #### Value lemmas for `static_int<1>` -/

theorem wf1_dest {s : s_int1} (h : wf1 s) :
    s.l0 < W ∧ s.size.natAbs ≤ 1 ∧ (s.size = 0 → s.l0 = 0) ∧
      (s.size ≠ 0 → s.l0 ≠ 0) := by
  obtain ⟨hl, hs, hz, ht⟩ := h
  refine ⟨hl, hs, hz, fun h0 hc => ht h0 ?_⟩
  simp [numbMask, hc]

theorem natAbs_val1 {s : s_int1} (h : wf1 s) : (val1 s).natAbs = s.l0 := by
  obtain ⟨hl, hs, hz, ht⟩ := wf1_dest h
  rcases eq_or_ne s.size 0 with h0 | h0
  · simp [val1, h0, hz h0]
  · unfold val1
    rw [Int.natAbs_mul, Int.natAbs_ofNat, sign_natAbs_of_ne h0, one_mul]

theorem val1_eq_zero_iff {s : s_int1} (h : wf1 s) : val1 s = 0 ↔ s.size = 0 := by
  obtain ⟨hl, hs, hz, ht⟩ := wf1_dest h
  constructor
  · intro hv
    by_contra h0
    have hna := natAbs_val1 h
    rw [hv] at hna
    exact ht h0 (by simpa using hna.symm)
  · intro h0
    simp [val1, h0, hz h0]

theorem sign_val1 {s : s_int1} (h : wf1 s) : (val1 s).sign = s.size.sign := by
  rcases eq_or_ne s.size 0 with h0 | h0
  · have hv : val1 s = 0 := (val1_eq_zero_iff h).mpr h0
    rw [hv, h0]
  · obtain ⟨hl, hs, hz, ht⟩ := wf1_dest h
    have hpos : (0 : Int) < (s.l0 : Int) := by
      exact_mod_cast Nat.pos_of_ne_zero (ht h0)
    unfold val1
    rw [Int.sign_mul, Int.sign_eq_one_iff_pos.mpr hpos, mul_one, Int.sign_sign]

/-- The 1-limb division kernel computes exactly the backend's truncated
division of the operand values. -/
theorem static_div1_vals (q r op1 op2 : s_int1) (h1 : wf1 op1) (h2 : wf1 op2)
    (hb : val1 op2 ≠ 0) :
    val1 (static_div1 q r op1 op2).1 = (mpz_tdiv_qr (val1 op1) (val1 op2)).1 ∧
      val1 (static_div1 q r op1 op2).2 = (mpz_tdiv_qr (val1 op1) (val1 op2)).2 := by
  obtain ⟨hl1, hs1, hz1, ht1⟩ := wf1_dest h1
  obtain ⟨hl2, hs2, hz2, ht2⟩ := wf1_dest h2
  have hm1 := numbMask_eq_self hl1
  have hm2 := numbMask_eq_self hl2
  have hna1 := natAbs_val1 h1
  have hna2 := natAbs_val1 h2
  have hsg1 := sign_val1 h1
  have hsg2 := sign_val1 h2
  have hS2 : op2.size.sign = 1 ∨ op2.size.sign = -1 := by
    have h0 : op2.size ≠ 0 := fun hc => hb ((val1_eq_zero_iff h2).mpr hc)
    rcases sign_cases op2.size with ⟨e, -⟩ | ⟨e, hv⟩ | ⟨e, -⟩
    · exact Or.inl e
    · exact absurd hv h0
    · exact Or.inr e
  have sOne : (1 : Int).sign = 1 := rfl
  have sNegOne : ((-1 : Int)).sign = -1 := rfl
  have hsign1 : ∀ hc : op1.l0 ≠ 0, op1.size.sign = 1 ∨ op1.size.sign = -1 := by
    intro hc
    have h0 : op1.size ≠ 0 := fun hcc => hc (hz1 hcc)
    rcases sign_cases op1.size with ⟨e, -⟩ | ⟨e, hv⟩ | ⟨e, -⟩
    · exact Or.inl e
    · exact absurd hv h0
    · exact Or.inr e
  unfold static_div1 static_div_impl1 mpz_tdiv_qr
  rw [signOf_eq_sign, signOf_eq_sign, hm1, hm2, hna1, hna2, hsg1, hsg2]
  dsimp only
  constructor
  · by_cases hq : op1.l0 / op2.l0 = 0
    · simp [val1, hq]
    · have hc0 : op1.l0 ≠ 0 := by
        intro hc
        rw [hc, Nat.zero_div] at hq
        exact hq rfl
      rcases hsign1 hc0 with e1 | e1 <;> rcases hS2 with e2 | e2 <;>
        rw [e1, e2] <;> simp [val1, hq, sOne, sNegOne]
  · by_cases hr : op1.l0 % op2.l0 = 0
    · simp [val1, hr]
    · have hc0 : op1.l0 ≠ 0 := by
        intro hc
        rw [hc, Nat.zero_mod] at hr
        exact hr rfl
      rcases hsign1 hc0 with e1 | e1 <;>
        rw [e1] <;> simp [val1, hr, sOne, sNegOne]

/-- `natAbs` of a 2-limb value, in the operand order used by `dlimb_div`. -/
theorem natAbs_val2_dlimb {s : s_int2} (h : wf2 s) :
    (val2 s).natAbs = s.l0 + s.l1 * W := by
  rw [natAbs_val2 h]
  ring

/-- Value of the `dlimb` quotient write-out: limbs `m % W`, `m / W`, size by
inspecting high then low limb, sign `s1*s2`. -/
theorem val2_pair_result (s1 s2 : Int) (m : Nat)
    (h1 : m ≠ 0 → s1 = 1 ∨ s1 = -1) (h2 : s2 = 1 ∨ s2 = -1) :
    val2 { size := if s1 ≠ s2 then
                     -(if m / W ≠ 0 then 2 else if m % W ≠ 0 then 1 else 0)
                   else (if m / W ≠ 0 then 2 else if m % W ≠ 0 then 1 else 0),
           l0 := m % W, l1 := m / W }
      = s1 * s2 * (m : Int) := by
  have hsplit : ((m % W : Nat) : Int) + (W : Int) * ((m / W : Nat) : Int)
      = (m : Int) := by
    exact_mod_cast Nat.mod_add_div m W
  unfold val2
  dsimp only
  by_cases hm : m = 0
  · subst hm
    simp
  · by_cases hw : m / W = 0
    · have hm1 : m % W ≠ 0 := by
        intro v
        apply hm
        have h3 := Nat.mod_add_div m W
        rw [v, hw] at h3
        simpa using h3.symm
      rw [if_neg (not_not_intro hw), if_pos hm1]
      rcases h1 hm with e | e <;> rcases h2 with f | f <;> subst e <;> subst f
      · rw [if_neg (by norm_num), show ((1 : Int)).sign = 1 from rfl, hsplit]; ring
      · rw [if_pos (by norm_num), show ((-1 : Int)).sign = -1 from rfl, hsplit]; ring
      · rw [if_pos (by norm_num), show ((-1 : Int)).sign = -1 from rfl, hsplit]; ring
      · rw [if_neg (by norm_num), show ((1 : Int)).sign = 1 from rfl, hsplit]; ring
    · rw [if_pos hw]
      rcases h1 hm with e | e <;> rcases h2 with f | f <;> subst e <;> subst f
      · rw [if_neg (by norm_num), show ((2 : Int)).sign = 1 from rfl, hsplit]; ring
      · rw [if_pos (by norm_num), show ((-2 : Int)).sign = -1 from rfl, hsplit]; ring
      · rw [if_pos (by norm_num), show ((-2 : Int)).sign = -1 from rfl, hsplit]; ring
      · rw [if_neg (by norm_num), show ((2 : Int)).sign = 1 from rfl, hsplit]; ring

/-- Value of the `dlimb` remainder write-out (sign of the dividend). -/
theorem val2_pair_result_r (s1 : Int) (m : Nat)
    (h1 : m ≠ 0 → s1 = 1 ∨ s1 = -1) :
    val2 { size := if s1 = -1 then
                     -(if m / W ≠ 0 then 2 else if m % W ≠ 0 then 1 else 0)
                   else (if m / W ≠ 0 then 2 else if m % W ≠ 0 then 1 else 0),
           l0 := m % W, l1 := m / W }
      = s1 * (m : Int) := by
  have hsplit : ((m % W : Nat) : Int) + (W : Int) * ((m / W : Nat) : Int)
      = (m : Int) := by
    exact_mod_cast Nat.mod_add_div m W
  unfold val2
  dsimp only
  by_cases hm : m = 0
  · subst hm
    simp
  · by_cases hw : m / W = 0
    · have hm1 : m % W ≠ 0 := by
        intro v
        apply hm
        have h3 := Nat.mod_add_div m W
        rw [v, hw] at h3
        simpa using h3.symm
      rw [if_neg (not_not_intro hw), if_pos hm1]
      rcases h1 hm with e | e <;> subst e
      · rw [if_neg (by norm_num), show ((1 : Int)).sign = 1 from rfl, hsplit]
      · rw [if_pos rfl, show ((-1 : Int)).sign = -1 from rfl, hsplit]
    · rw [if_pos hw]
      rcases h1 hm with e | e <;> subst e
      · rw [if_neg (by norm_num), show ((2 : Int)).sign = 1 from rfl, hsplit]
      · rw [if_pos rfl, show ((-2 : Int)).sign = -1 from rfl, hsplit]

/-- Value of the single-limb quotient write-out of the 2-limb kernel's fast
path (high limb written as zero). -/
theorem val2_single_result (s1 s2 : Int) (n : Nat)
    (h1 : n ≠ 0 → s1 = 1 ∨ s1 = -1) (h2 : s2 = 1 ∨ s2 = -1) :
    val2 { size := if s1 ≠ s2 then -(if n ≠ 0 then 1 else 0)
                   else (if n ≠ 0 then 1 else 0),
           l0 := n, l1 := 0 }
      = s1 * s2 * (n : Int) := by
  unfold val2
  dsimp only
  by_cases hn : n = 0
  · subst hn
    simp
  · rw [if_pos hn]
    rcases h1 hn with e | e <;> rcases h2 with f | f <;> subst e <;> subst f
    · rw [if_neg (by norm_num), show ((1 : Int)).sign = 1 from rfl]; push_cast; ring
    · rw [if_pos (by norm_num), show ((-1 : Int)).sign = -1 from rfl]; push_cast; ring
    · rw [if_pos (by norm_num), show ((-1 : Int)).sign = -1 from rfl]; push_cast; ring
    · rw [if_neg (by norm_num), show ((1 : Int)).sign = 1 from rfl]; push_cast; ring

/-- Value of the single-limb remainder write-out of the 2-limb kernel's fast
path. -/
theorem val2_single_result_r (s1 : Int) (n : Nat)
    (h1 : n ≠ 0 → s1 = 1 ∨ s1 = -1) :
    val2 { size := if s1 = -1 then -(if n ≠ 0 then 1 else 0)
                   else (if n ≠ 0 then 1 else 0),
           l0 := n, l1 := 0 }
      = s1 * (n : Int) := by
  unfold val2
  dsimp only
  by_cases hn : n = 0
  · subst hn
    simp
  · rw [if_pos hn]
    rcases h1 hn with e | e <;> subst e
    · rw [if_neg (by norm_num), show ((1 : Int)).sign = 1 from rfl]; push_cast; ring
    · rw [if_pos rfl, show ((-1 : Int)).sign = -1 from rfl]; push_cast; ring

/-- The 2-limb division kernel computes exactly the backend's truncated
division of the operand values. -/
theorem static_div2_vals (q r op1 op2 : s_int2) (h1 : wf2 op1) (h2 : wf2 op2)
    (hb : val2 op2 ≠ 0) :
    val2 (static_div2 q r op1 op2).1 = (mpz_tdiv_qr (val2 op1) (val2 op2)).1 ∧
      val2 (static_div2 q r op1 op2).2 = (mpz_tdiv_qr (val2 op1) (val2 op2)).2 := by
  have hzt1 : op1.size.natAbs ≤ 1 → op1.l1 = 0 := h1.2.2.2.2.1
  have hzt2 : op2.size.natAbs ≤ 1 → op2.l1 = 0 := h2.2.2.2.2.1
  have hz1 : op1.size = 0 → op1.l0 = 0 ∧ op1.l1 = 0 := (wf2_dest h1).2.2.2.1
  have hna1 := natAbs_val2_dlimb h1
  have hna2 := natAbs_val2_dlimb h2
  have hsg1 := sign_val2 h1
  have hsg2 := sign_val2 h2
  have hS2 : op2.size.sign = 1 ∨ op2.size.sign = -1 := by
    have h0 : op2.size ≠ 0 := fun hc => hb ((val2_eq_zero_iff h2).mpr hc)
    rcases sign_cases op2.size with ⟨e, -⟩ | ⟨e, hv⟩ | ⟨e, -⟩
    · exact Or.inl e
    · exact absurd hv h0
    · exact Or.inr e
  have hsign1 : op1.l0 + op1.l1 * W ≠ 0 →
      op1.size.sign = 1 ∨ op1.size.sign = -1 := by
    intro hc
    have h0 : op1.size ≠ 0 := by
      intro hcc
      obtain ⟨e0, e1⟩ := hz1 hcc
      exact hc (by rw [e0, e1]; ring)
    rcases sign_cases op1.size with ⟨e, -⟩ | ⟨e, hv⟩ | ⟨e, -⟩
    · exact Or.inl e
    · exact absurd hv h0
    · exact Or.inr e
  unfold static_div2 static_div_impl2 dlimb_div asizeOf
  rw [signOf_eq_sign, signOf_eq_sign]
  dsimp only
  unfold mpz_tdiv_qr
  rw [hna1, hna2, hsg1, hsg2]
  by_cases hcase : op1.size.natAbs < 2 ∧ op2.size.natAbs < 2
  · rw [if_pos hcase]
    dsimp only
    have e11 : op1.l1 = 0 := hzt1 (by omega)
    have e21 : op2.l1 = 0 := hzt2 (by omega)
    rw [e11, e21]
    simp only [Nat.zero_mul, Nat.add_zero]
    have h1q : op1.l0 / op2.l0 ≠ 0 → op1.size.sign = 1 ∨ op1.size.sign = -1 := by
      intro hn
      apply hsign1
      rw [e11]
      simp only [Nat.zero_mul, Nat.add_zero]
      intro hc
      rw [hc, Nat.zero_div] at hn
      exact hn rfl
    have h1r : op1.l0 % op2.l0 ≠ 0 → op1.size.sign = 1 ∨ op1.size.sign = -1 := by
      intro hn
      apply hsign1
      rw [e11]
      simp only [Nat.zero_mul, Nat.add_zero]
      intro hc
      rw [hc, Nat.zero_mod] at hn
      exact hn rfl
    exact ⟨val2_single_result _ _ _ h1q hS2, val2_single_result_r _ _ h1r⟩
  · rw [if_neg hcase]
    dsimp only
    have h1q : (op1.l0 + op1.l1 * W) / (op2.l0 + op2.l1 * W) ≠ 0 →
        op1.size.sign = 1 ∨ op1.size.sign = -1 := by
      intro hn
      apply hsign1
      intro hc
      rw [hc, Nat.zero_div] at hn
      exact hn rfl
    have h1r : (op1.l0 + op1.l1 * W) % (op2.l0 + op2.l1 * W) ≠ 0 →
        op1.size.sign = 1 ∨ op1.size.sign = -1 := by
      intro hn
      apply hsign1
      intro hc
      rw [hc, Nat.zero_mod] at hn
      exact hn rfl
    exact ⟨val2_pair_result _ _ _ h1q hS2, val2_pair_result_r _ _ h1r⟩

/-! #### Limb-list lemmas for the generic kernel -/

theorem W_pos : 0 < W := by norm_num [W]

theorem limbsOf_length : ∀ len n : Nat, (limbsOf len n).length = len := by
  intro len
  induction len with
  | zero => intro n; rfl
  | succ k ih => intro n; simp [limbsOf, ih]

theorem limbsOf_lt : ∀ len n : Nat, ∀ d ∈ limbsOf len n, d < W := by
  intro len
  induction len with
  | zero => intro n d hd; cases hd
  | succ k ih =>
    intro n d hd
    rcases List.mem_cons.mp hd with e | e
    · rw [e]; exact Nat.mod_lt _ W_pos
    · exact ih _ d e

theorem valN_limbsOf : ∀ len n : Nat, n < W ^ len → valN (limbsOf len n) = n := by
  intro len
  induction len with
  | zero =>
    intro n h
    simp only [pow_zero, Nat.lt_one_iff] at h
    simp [limbsOf, valN, h]
  | succ k ih =>
    intro n h
    have hdiv : n / W < W ^ k := by
      rw [Nat.div_lt_iff_lt_mul W_pos]
      calc n < W ^ (k + 1) := h
        _ = W ^ k * W := by ring
    simp only [limbsOf, valN, ih _ hdiv]
    exact Nat.mod_add_div n W

theorem valN_lt : ∀ ls : List Nat, (∀ d ∈ ls, d < W) → valN ls < W ^ ls.length := by
  intro ls
  induction ls with
  | nil => intro _; simp [valN]
  | cons d tl ih =>
    intro h
    have hd := h d (by simp)
    have ht := ih (fun x hx => h x (by simp [hx]))
    simp only [valN, List.length_cons]
    calc d + W * valN tl < W + W * valN tl := by omega
      _ = W * (valN tl + 1) := by ring
      _ ≤ W * W ^ tl.length := Nat.mul_le_mul_left W ht
      _ = W ^ (tl.length + 1) := by ring

theorem getD_lt {ls : List Nat} (h : ∀ d ∈ ls, d < W) : ∀ k, ls.getD k 0 < W := by
  induction ls with
  | nil => intro k; simpa [List.getD] using W_pos
  | cons d tl ih =>
    intro k
    cases k with
    | zero => simpa using h d (by simp)
    | succ k =>
      simp only [List.getD_cons_succ]
      exact ih (fun x hx => h x (by simp [hx])) k

theorem valN_take_succ : ∀ (k : Nat) (ls : List Nat),
    valN (ls.take (k + 1)) = valN (ls.take k) + W ^ k * ls.getD k 0 := by
  intro k
  induction k with
  | zero =>
    intro ls
    cases ls with
    | nil => simp [valN]
    | cons d tl => simp [valN]
  | succ k ih =>
    intro ls
    cases ls with
    | nil => simp [valN]
    | cons d tl =>
      simp only [List.take_succ_cons, valN, List.getD_cons_succ, ih tl]
      ring

theorem sub_compute_size_le (ls : List Nat) : ∀ k, sub_compute_size ls k ≤ k := by
  intro k
  induction k with
  | zero => exact le_refl 0
  | succ k ih =>
    unfold sub_compute_size
    split_ifs
    · exact le_refl _
    · exact le_trans ih (by omega)

theorem valN_take_scan (ls : List Nat) (h : ∀ d ∈ ls, d < W) :
    ∀ k, valN (ls.take (sub_compute_size ls k)) = valN (ls.take k) := by
  intro k
  induction k with
  | zero => rfl
  | succ k ih =>
    unfold sub_compute_size
    split_ifs with hc
    · rfl
    · rw [ih, valN_take_succ]
      have hlt : ls.getD k 0 < W := getD_lt h k
      have hz : ls.getD k 0 = 0 := by
        by_contra hne
        exact hc (by rwa [numbMask_eq_self hlt])
      rw [hz]
      ring

theorem getD_append_lt : ∀ (xs ys : List Nat) (k : Nat), k < xs.length →
    (xs ++ ys).getD k 0 = xs.getD k 0 := by
  intro xs
  induction xs with
  | nil => intro ys k h; cases h
  | cons d tl ih =>
    intro ys k h
    cases k with
    | zero => simp
    | succ k =>
      simp only [List.cons_append, List.getD_cons_succ]
      exact ih ys k (by simpa using h)

theorem sub_compute_size_append (xs ys : List Nat) :
    ∀ k, k ≤ xs.length → sub_compute_size (xs ++ ys) k = sub_compute_size xs k := by
  intro k
  induction k with
  | zero => intro _; rfl
  | succ k ih =>
    intro h
    unfold sub_compute_size
    rw [getD_append_lt xs ys k (by omega)]
    split_ifs
    · rfl
    · exact ih (by omega)

theorem take_append_le : ∀ (xs ys : List Nat) (k : Nat), k ≤ xs.length →
    (xs ++ ys).take k = xs.take k := by
  intro xs
  induction xs with
  | nil =>
    intro ys k h
    have hk : k = 0 := Nat.le_zero.mp (by simpa using h)
    subst hk
    rfl
  | cons d tl ih =>
    intro ys k h
    cases k with
    | zero => rfl
    | succ k =>
      simp only [List.cons_append, List.take_succ_cons]
      rw [ih ys k (by simpa using h)]

theorem valN_top_ge {ls : List Nat} {k : Nat} (hk : 1 ≤ k)
    (htop : ls.getD (k - 1) 0 ≠ 0) : W ^ (k - 1) ≤ valN (ls.take k) := by
  obtain ⟨j, rfl⟩ : ∃ j, k = j + 1 := ⟨k - 1, by omega⟩
  simp only [Nat.add_sub_cancel] at htop ⊢
  rw [valN_take_succ]
  have h1 : 1 ≤ ls.getD j 0 := Nat.one_le_iff_ne_zero.mpr htop
  calc W ^ j = W ^ j * 1 := by ring
    _ ≤ W ^ j * ls.getD j 0 := Nat.mul_le_mul_left _ h1
    _ ≤ valN (ls.take j) + W ^ j * ls.getD j 0 := by omega

theorem natAbs_valG (s : s_intG) :
    (valG s).natAbs = valN (s.limbs.take s.size.natAbs) := by
  unfold valG
  rw [Int.natAbs_mul, Int.natAbs_ofNat]
  rcases sign_cases s.size with ⟨e, -⟩ | ⟨e, h0⟩ | ⟨e, -⟩ <;> rw [e]
  · rw [Int.natAbs_one, one_mul]
  · rw [h0]
    rfl
  · rw [show ((-1 : Int)).natAbs = 1 from rfl, one_mul]

theorem sign_valG {ssize : Nat} {s : s_intG} (h : wfG ssize s) :
    (valG s).sign = s.size.sign := by
  obtain ⟨hlen, hlt, hsz, htop⟩ := h
  rcases eq_or_ne s.size 0 with h0 | h0
  · rw [h0]
    unfold valG
    rw [h0]
    rfl
  · have htop' := htop h0
    have hk : 1 ≤ s.size.natAbs := by
      have := Int.natAbs_eq_zero.not.mpr h0
      omega
  -- placeholder
    have hge : W ^ (s.size.natAbs - 1) ≤ valN (s.limbs.take s.size.natAbs) := by
      apply valN_top_ge hk
      intro hc
      apply htop'
      rw [hc]
      simp [numbMask]
    have hpos : (0 : Int) < (valN (s.limbs.take s.size.natAbs) : Int) := by
      have : 0 < valN (s.limbs.take s.size.natAbs) :=
        lt_of_lt_of_le (pow_pos W_pos _) hge
      exact_mod_cast this
    unfold valG
    rw [Int.sign_mul, Int.sign_eq_one_iff_pos.mpr hpos, mul_one, Int.sign_sign]

theorem valG_ne_zero_size {s : s_intG} (hb : valG s ≠ 0) :
    s.size ≠ 0 := by
  intro hc
  apply hb
  unfold valG
  rw [hc]
  rfl

/-- `writeAt` at offset 0 replaces the prefix. -/
theorem writeAt_zero (dst src : List Nat) :
    writeAt dst 0 src = src ++ dst.drop src.length := by
  simp [writeAt]

theorem limbsOf_one {v : Nat} (h : v < W) : limbsOf 1 v = [v] := by
  simp [limbsOf, Nat.mod_eq_of_lt h]

/-- Value of a kernel result written as `len` backend limbs of the value `v`
followed by stale storage, with the size computed by the descending scan and
the sign applied as `if cond then negative else positive`. -/
theorem valG_scan_result (cond : Prop) [Decidable cond] (len v : Nat)
    (rest : List Nat) (hv : v < W ^ len) :
    valG { size := if cond then
                     -(sub_compute_size (limbsOf len v ++ rest) len : Int)
                   else (sub_compute_size (limbsOf len v ++ rest) len : Int),
           limbs := limbsOf len v ++ rest }
      = (if cond then (-1 : Int) else 1) * (v : Int) := by
  have hlenL : len ≤ (limbsOf len v).length := by rw [limbsOf_length]
  have hscApp : sub_compute_size (limbsOf len v ++ rest) len
      = sub_compute_size (limbsOf len v) len :=
    sub_compute_size_append _ _ _ hlenL
  have hscle : sub_compute_size (limbsOf len v ++ rest) len ≤ len := by
    rw [hscApp]
    exact sub_compute_size_le _ _
  have hvalsc : valN ((limbsOf len v ++ rest).take
      (sub_compute_size (limbsOf len v ++ rest) len)) = v := by
    rw [take_append_le _ _ _ (le_trans hscle hlenL), hscApp,
      valN_take_scan _ (limbsOf_lt _ _) len,
      List.take_of_length_le (le_of_eq (limbsOf_length _ _))]
    exact valN_limbsOf _ _ hv
  set sc := sub_compute_size (limbsOf len v ++ rest) len with hsc
  unfold valG
  dsimp only
  by_cases hsc0 : sc = 0
  · have hv0 : v = 0 := by
      rw [← hvalsc, hsc0]
      rfl
    rw [hv0]
    by_cases hc : cond
    · rw [if_pos hc, if_pos hc, hsc0]
      simp
    · rw [if_neg hc, if_neg hc, hsc0]
      simp
  · have hscpos : (0 : Int) < (sc : Int) := by
      exact_mod_cast Nat.pos_of_ne_zero hsc0
    by_cases hc : cond
    · rw [if_pos hc, if_pos hc]
      have hna : (-(sc : Int)).natAbs = sc := by simp
      have hsgn : (-(sc : Int)).sign = -1 :=
        Int.sign_eq_neg_one_iff_neg.mpr (by omega)
      rw [hna, hsgn, hvalsc]
    · rw [if_neg hc, if_neg hc]
      have hna : ((sc : Int)).natAbs = sc := Int.natAbs_ofNat sc
      have hsgn : ((sc : Int)).sign = 1 := Int.sign_eq_one_iff_pos.mpr hscpos
      rw [hna, hsgn, hvalsc]

theorem sign_if_mul (s1 s2 : Int) (v : Nat)
    (h1 : v ≠ 0 → s1 = 1 ∨ s1 = -1) (h2 : v ≠ 0 → s2 = 1 ∨ s2 = -1) :
    (if s1 ≠ s2 then (-1 : Int) else 1) * (v : Int) = s1 * s2 * v := by
  by_cases hv : v = 0
  · rw [hv]
    simp
  · rcases h1 hv with e | e <;> rcases h2 hv with f | f <;>
      subst e <;> subst f <;> norm_num

theorem sign_if_mul_r (s1 : Int) (v : Nat)
    (h1 : v ≠ 0 → s1 = 1 ∨ s1 = -1) :
    (if s1 = -1 then (-1 : Int) else 1) * (v : Int) = s1 * v := by
  by_cases hv : v = 0
  · rw [hv]
    simp
  · rcases h1 hv with e | e <;> subst e <;> norm_num

/-- Quotient limb-count bound: a dividend below `W^a1` divided by a divisor
of at least `W^(a2-1)` fits in `a1 - a2 + 1` limbs. -/
theorem div_bound {A B a1 a2 : Nat} (hA : A < W ^ a1) (hB : W ^ (a2 - 1) ≤ B)
    (ha : 1 ≤ a2) (h12 : a2 ≤ a1) : A / B < W ^ (a1 - a2 + 1) := by
  have hBpos : 0 < B := lt_of_lt_of_le (pow_pos W_pos _) hB
  rw [Nat.div_lt_iff_lt_mul hBpos]
  calc A < W ^ a1 := hA
    _ = W ^ (a1 - a2 + 1) * W ^ (a2 - 1) := by
      rw [← pow_add]
      congr 1
      omega
    _ ≤ W ^ (a1 - a2 + 1) * B := Nat.mul_le_mul_left _ hB

theorem getD_zero_take_one (ls : List Nat) :
    (ls.take 1).getD 0 0 = valN (ls.take 1) := by
  cases ls <;> simp [valN]

/-- The generic (mpn) division kernel computes exactly the backend's
truncated division of the operand values.  `3 ≤ ssize` reflects that on the
modelled platform the generic kernel is only selected for `SSize ≥ 3`
(smaller sizes use the specialised kernels), which also makes
`zero_unused_limbs` a no-op. -/
theorem static_divG_vals (ssize : Nat) (q r op1 op2 : s_intG) (hss : 3 ≤ ssize)
    (h1 : wfG ssize op1) (h2 : wfG ssize op2) (hb : valG op2 ≠ 0) :
    valG (static_divG ssize q r op1 op2).1 = (mpz_tdiv_qr (valG op1) (valG op2)).1 ∧
      valG (static_divG ssize q r op1 op2).2 = (mpz_tdiv_qr (valG op1) (valG op2)).2 := by
  obtain ⟨hlen1, hlt1, hsz1, htop1⟩ := id h1
  obtain ⟨hlen2, hlt2, hsz2, htop2⟩ := id h2
  have hzu : ∀ s, zero_unused_limbsG ssize s = s := fun s => if_neg (by omega)
  have hs2ne : op2.size ≠ 0 := valG_ne_zero_size hb
  have ha2pos : 1 ≤ op2.size.natAbs := by
    have := Int.natAbs_eq_zero.not.mpr hs2ne
    omega
  have hlentk1 : (op1.limbs.take op1.size.natAbs).length = op1.size.natAbs := by
    rw [List.length_take, hlen1]
    omega
  have hlentk2 : (op2.limbs.take op2.size.natAbs).length = op2.size.natAbs := by
    rw [List.length_take, hlen2]
    omega
  have hAlt : valN (op1.limbs.take op1.size.natAbs) < W ^ op1.size.natAbs := by
    have := valN_lt (op1.limbs.take op1.size.natAbs)
      (fun d hd => hlt1 d (List.take_subset op1.size.natAbs op1.limbs hd))
    rwa [hlentk1] at this
  have hBlt : valN (op2.limbs.take op2.size.natAbs) < W ^ op2.size.natAbs := by
    have := valN_lt (op2.limbs.take op2.size.natAbs)
      (fun d hd => hlt2 d (List.take_subset op2.size.natAbs op2.limbs hd))
    rwa [hlentk2] at this
  have hBge : W ^ (op2.size.natAbs - 1) ≤ valN (op2.limbs.take op2.size.natAbs) := by
    apply valN_top_ge ha2pos
    intro hc
    apply htop2 hs2ne
    rw [hc]
    simp [numbMask]
  have hBpos : 0 < valN (op2.limbs.take op2.size.natAbs) :=
    lt_of_lt_of_le (pow_pos W_pos _) hBge
  have hsign1 : valN (op1.limbs.take op1.size.natAbs) ≠ 0 →
      op1.size.sign = 1 ∨ op1.size.sign = -1 := by
    intro hc
    have h0 : op1.size ≠ 0 := by
      intro hcc
      apply hc
      rw [hcc]
      rfl
    rcases sign_cases op1.size with ⟨e, -⟩ | ⟨e, hv⟩ | ⟨e, -⟩
    · exact Or.inl e
    · exact absurd hv h0
    · exact Or.inr e
  have hS2 : op2.size.sign = 1 ∨ op2.size.sign = -1 := by
    rcases sign_cases op2.size with ⟨e, -⟩ | ⟨e, hv⟩ | ⟨e, -⟩
    · exact Or.inl e
    · exact absurd hv hs2ne
    · exact Or.inr e
  unfold static_divG static_div_impl0 asizeOf
  rw [signOf_eq_sign, signOf_eq_sign]
  dsimp only
  rw [hzu, hzu]
  unfold mpz_tdiv_qr
  rw [natAbs_valG, natAbs_valG, sign_valG h1, sign_valG h2]
  by_cases hcase : op2.size.natAbs > op1.size.natAbs
  · rw [if_pos hcase]
    dsimp only
    have hAB : valN (op1.limbs.take op1.size.natAbs)
        < valN (op2.limbs.take op2.size.natAbs) :=
      lt_of_lt_of_le (lt_of_lt_of_le hAlt
        (Nat.pow_le_pow_right W_pos (by omega))) hBge
    constructor
    · rw [Nat.div_eq_of_lt hAB]
      simp [valG]
    · rw [Nat.mod_eq_of_lt hAB]
      rfl
  · rw [if_neg hcase]
    dsimp only
    have h12 : op2.size.natAbs ≤ op1.size.natAbs := by omega
    have hq1 : ∀ m : Nat, valN (op1.limbs.take op1.size.natAbs) / m ≠ 0 →
        op1.size.sign = 1 ∨ op1.size.sign = -1 := by
      intro m hn
      apply hsign1
      intro hc
      rw [hc, Nat.zero_div] at hn
      exact hn rfl
    have hr1 : ∀ m : Nat, valN (op1.limbs.take op1.size.natAbs) % m ≠ 0 →
        op1.size.sign = 1 ∨ op1.size.sign = -1 := by
      intro m hn
      apply hsign1
      intro hc
      rw [hc, Nat.zero_mod] at hn
      exact hn rfl
    by_cases hone : op2.size.natAbs = 1
    · rw [if_pos hone]
      unfold mpn_divrem_1
      dsimp only
      rw [hone, writeAt_zero, writeAt_zero, hlentk1, getD_zero_take_one,
        show op1.size.natAbs - 1 + 1 = op1.size.natAbs by omega]
      rw [hone] at hBpos
      have hrlt : valN (op1.limbs.take op1.size.natAbs) % valN (op2.limbs.take 1) < W := by
        have hBlt1 : valN (op2.limbs.take 1) < W := by
          have := hBlt
          rw [hone, pow_one] at this
          exact this
        exact lt_of_lt_of_le (Nat.mod_lt _ hBpos) (le_of_lt hBlt1)
      rw [show ([valN (op1.limbs.take op1.size.natAbs) % valN (op2.limbs.take 1)] : List Nat)
          = limbsOf 1 (valN (op1.limbs.take op1.size.natAbs) % valN (op2.limbs.take 1)) from
          (limbsOf_one hrlt).symm]
      constructor
      · refine (valG_scan_result _ _ _ _ ?_).trans (sign_if_mul _ _ _ (hq1 _) (fun _ => hS2))
        exact lt_of_le_of_lt (Nat.div_le_self _ _) hAlt
      · exact (valG_scan_result _ _ _ _ (by rwa [pow_one])).trans
          (sign_if_mul_r _ _ (hr1 _))
    · rw [if_neg hone]
      unfold mpn_tdiv_qr
      dsimp only
      rw [writeAt_zero, writeAt_zero, hlentk1, hlentk2]
      constructor
      · refine (valG_scan_result _ _ _ _ ?_).trans (sign_if_mul _ _ _ (hq1 _) (fun _ => hS2))
        exact div_bound hAlt hBge ha2pos h12
      · refine (valG_scan_result _ _ _ _ ?_).trans (sign_if_mul_r _ _ (hr1 _))
        exact lt_of_lt_of_le (Nat.mod_lt _ hBpos) (le_of_lt hBlt)

/-- With `same_qr = false` and a nonzero divisor, `div` signals no error and
writes exactly the backend's truncated quotient and remainder, on every
storage combination. -/
theorem div_call_vals (q r a b : mp_int2) (ha : wfM a) (hb : wfM b)
    (hbne : valM b ≠ 0) :
    (div_call false q r a b).1 = none ∧
      valM (div_call false q r a b).2.1 = (mpz_tdiv_qr (valM a) (valM b)).1 ∧
      valM (div_call false q r a b).2.2 = (mpz_tdiv_qr (valM a) (valM b)).2 := by
  have hsgn : ¬ sign_member b = 0 := by
    rw [sign_member_eq_sign hb]
    exact fun h => hbne (Int.sign_eq_zero_iff_zero.mp h)
  unfold div_call
  simp only [Bool.false_eq_true, if_false]
  rw [if_neg hsgn]
  cases q with
  | st sq =>
    cases r with
    | st sr =>
      cases a with
      | st s1 =>
        cases b with
        | st s2 =>
          exact ⟨rfl, (static_div2_vals sq sr s1 s2 ha hb hbne).1,
            (static_div2_vals sq sr s1 s2 ha hb hbne).2⟩
        | dy z2 => exact ⟨rfl, rfl, rfl⟩
      | dy z1 => cases b <;> exact ⟨rfl, rfl, rfl⟩
    | dy zr => cases a <;> cases b <;> exact ⟨rfl, rfl, rfl⟩
  | dy zq => cases r <;> cases a <;> cases b <;> exact ⟨rfl, rfl, rfl⟩

/-- C1: for every pair of integers `a` and `b` with `b` nonzero, division
(with `q` and `r` distinct) satisfies the truncated Euclidean postcondition
`q*b + r = a`, `|r| < |b|`, and `r = 0` or `sign r = sign a` — on the 1-limb
static kernel, on the 2-limb static kernel, on the generic static kernel,
and through the `div` dispatcher on every storage combination. -/
theorem div_euclidean_all_paths :
    (∀ q r op1 op2 : s_int1, wf1 op1 → wf1 op2 → val1 op2 ≠ 0 →
      DivPost (val1 op1) (val1 op2)
        (val1 (static_div1 q r op1 op2).1) (val1 (static_div1 q r op1 op2).2)) ∧
    (∀ q r op1 op2 : s_int2, wf2 op1 → wf2 op2 → val2 op2 ≠ 0 →
      DivPost (val2 op1) (val2 op2)
        (val2 (static_div2 q r op1 op2).1) (val2 (static_div2 q r op1 op2).2)) ∧
    (∀ ssize : Nat, 3 ≤ ssize → ∀ q r op1 op2 : s_intG,
      wfG ssize op1 → wfG ssize op2 → valG op2 ≠ 0 →
      DivPost (valG op1) (valG op2)
        (valG (static_divG ssize q r op1 op2).1)
        (valG (static_divG ssize q r op1 op2).2)) ∧
    (∀ q r a b : mp_int2, wfM a → wfM b → valM b ≠ 0 →
      (div_call false q r a b).1 = none ∧
        DivPost (valM a) (valM b)
          (valM (div_call false q r a b).2.1)
          (valM (div_call false q r a b).2.2)) := by
  refine ⟨?_, ?_, ?_, ?_⟩
  · intro q r op1 op2 h1 h2 hb
    obtain ⟨e1, e2⟩ := static_div1_vals q r op1 op2 h1 h2 hb
    rw [e1, e2]
    exact mpz_tdiv_qr_post _ _ hb
  · intro q r op1 op2 h1 h2 hb
    obtain ⟨e1, e2⟩ := static_div2_vals q r op1 op2 h1 h2 hb
    rw [e1, e2]
    exact mpz_tdiv_qr_post _ _ hb
  · intro ssize hss q r op1 op2 h1 h2 hb
    obtain ⟨e1, e2⟩ := static_divG_vals ssize q r op1 op2 hss h1 h2 hb
    rw [e1, e2]
    exact mpz_tdiv_qr_post _ _ hb
  · intro q r a b ha hb hbne
    obtain ⟨e0, e1, e2⟩ := div_call_vals q r a b ha hb hbne
    rw [e1, e2]
    exact ⟨e0, mpz_tdiv_qr_post _ _ hbne⟩

theorem digits_ten_two : Nat.digits 10 2 = [2] := by
  rw [Nat.digits_def' (by norm_num : (1 : Nat) < 10) (by norm_num : 0 < 2)]
  norm_num

theorem digits_two_two : Nat.digits 2 2 = [0, 1] := by
  rw [Nat.digits_def' (by norm_num : (1 : Nat) < 2) (by norm_num : 0 < 2)]
  rw [Nat.digits_def' (by norm_num : (1 : Nat) < 2) (by norm_num : 0 < 2 / 2)]
  norm_num

theorem get_str_two_base_ten : mpz_get_str 2 10 = "2" := by
  unfold mpz_get_str
  rw [if_neg (by norm_num), if_neg (by norm_num),
    show ((2 : Int)).natAbs = 2 from rfl, digits_ten_two]
  rfl

theorem get_str_two_base_two : mpz_get_str 2 2 = "10" := by
  unfold mpz_get_str
  rw [if_neg (by norm_num), if_neg (by norm_num),
    show ((2 : Int)).natAbs = 2 from rfl, digits_two_two]
  rfl

/-- C4: the claim states `to_string(base)` returns the canonical base-`base`
representation for every base in `[2, 62]`.  In the code, `to_string`
validates `base` but then calls `mpz_to_str` without forwarding it, so the
conversion always uses the default base 10: for the value 2 with base 2 the
code returns `"2"`, while the canonical base-2 representation is `"10"`. -/
theorem to_string_ignores_base_code_bug :
    to_string (.dy 2) 2 = .ok "2" ∧ mpz_get_str 2 2 = "10" := by
  constructor
  · unfold to_string mpz_to_str
    rw [if_neg (by norm_num)]
    rw [if_neg (by
      rw [show ((valM (.dy 2))).natAbs = 2 from rfl, digits_ten_two]
      norm_num)]
    rw [show valM (.dy 2) = 2 from rfl, get_str_two_base_ten]
  · exact get_str_two_base_two

/-- Witness for C1: the spec's scenario `div(q, r, 7, -2)` on all four paths,
with every hypothesis discharged at a concrete input; the dispatcher path
checks `q = -3`, `r = 1`. -/
theorem div_euclidean_all_paths_witness :
    (wf1 ⟨1, 7⟩ ∧ wf1 ⟨-1, 2⟩ ∧ val1 ⟨-1, 2⟩ ≠ 0 ∧
      DivPost (val1 ⟨1, 7⟩) (val1 ⟨-1, 2⟩)
        (val1 (static_div1 ⟨0, 0⟩ ⟨0, 0⟩ ⟨1, 7⟩ ⟨-1, 2⟩).1)
        (val1 (static_div1 ⟨0, 0⟩ ⟨0, 0⟩ ⟨1, 7⟩ ⟨-1, 2⟩).2)) ∧
    (wf2 ⟨1, 7, 0⟩ ∧ wf2 ⟨-1, 2, 0⟩ ∧ val2 ⟨-1, 2, 0⟩ ≠ 0 ∧
      DivPost (val2 ⟨1, 7, 0⟩) (val2 ⟨-1, 2, 0⟩)
        (val2 (static_div2 ⟨0, 0, 0⟩ ⟨0, 0, 0⟩ ⟨1, 7, 0⟩ ⟨-1, 2, 0⟩).1)
        (val2 (static_div2 ⟨0, 0, 0⟩ ⟨0, 0, 0⟩ ⟨1, 7, 0⟩ ⟨-1, 2, 0⟩).2)) ∧
    ((3 : Nat) ≤ 3 ∧ wfG 3 ⟨1, [7, 0, 0]⟩ ∧ wfG 3 ⟨-1, [2, 0, 0]⟩ ∧
      valG ⟨-1, [2, 0, 0]⟩ ≠ 0 ∧
      DivPost (valG ⟨1, [7, 0, 0]⟩) (valG ⟨-1, [2, 0, 0]⟩)
        (valG (static_divG 3 ⟨0, [0, 0, 0]⟩ ⟨0, [0, 0, 0]⟩
          ⟨1, [7, 0, 0]⟩ ⟨-1, [2, 0, 0]⟩).1)
        (valG (static_divG 3 ⟨0, [0, 0, 0]⟩ ⟨0, [0, 0, 0]⟩
          ⟨1, [7, 0, 0]⟩ ⟨-1, [2, 0, 0]⟩).2)) ∧
    (valM (.dy (-2)) ≠ 0 ∧
      (div_call false (.dy 0) (.dy 0) (.dy 7) (.dy (-2))).1 = none ∧
      valM (div_call false (.dy 0) (.dy 0) (.dy 7) (.dy (-2))).2.1 = -3 ∧
      valM (div_call false (.dy 0) (.dy 0) (.dy 7) (.dy (-2))).2.2 = 1 ∧
      DivPost (valM (.dy 7)) (valM (.dy (-2)))
        (valM (div_call false (.dy 0) (.dy 0) (.dy 7) (.dy (-2))).2.1)
        (valM (div_call false (.dy 0) (.dy 0) (.dy 7) (.dy (-2))).2.2)) := by
  have h1w : wf1 ⟨1, 7⟩ := by unfold wf1; decide
  have h2w : wf1 ⟨-1, 2⟩ := by unfold wf1; decide
  have h1w2 : wf2 ⟨1, 7, 0⟩ := by unfold wf2; decide
  have h2w2 : wf2 ⟨-1, 2, 0⟩ := by unfold wf2; decide
  have h1wG : wfG 3 ⟨1, [7, 0, 0]⟩ := by unfold wfG; decide
  have h2wG : wfG 3 ⟨-1, [2, 0, 0]⟩ := by unfold wfG; decide
  refine ⟨⟨h1w, h2w, by decide, div_euclidean_all_paths.1 _ _ _ _ h1w h2w (by decide)⟩,
    ⟨h1w2, h2w2, by decide,
      div_euclidean_all_paths.2.1 _ _ _ _ h1w2 h2w2 (by decide)⟩,
    ⟨le_refl 3, h1wG, h2wG, by decide,
      div_euclidean_all_paths.2.2.1 3 (le_refl 3) _ _ _ _ h1wG h2wG (by decide)⟩,
    ⟨by decide, (div_euclidean_all_paths.2.2.2 (.dy 0) (.dy 0) (.dy 7) (.dy (-2))
        True.intro True.intro (by decide)).1, by decide, by decide,
      (div_euclidean_all_paths.2.2.2 (.dy 0) (.dy 0) (.dy 7) (.dy (-2))
        True.intro True.intro (by decide)).2⟩⟩

end Mppp
